import Mathlib

/-!
# Verification of the `chess.ts` move-generation core

A shallow embedding, in Lean 4, of the bitboard primitives, the `Move` value
type and the `Board` state machine of the `chess.ts` library (a TypeScript
port of python-chess), together with proofs and refutations of the
specification claims about them.

Modelling conventions:

* TypeScript `bigint` bitboards are modelled as `Nat`.  The source operates on
  arbitrary-precision integers and only masks with `BB_ALL` where the source
  does, so no implicit 64-bit truncation is introduced here either.
* The JS expression `x & ~y` on non-negative bigints equals, bit for bit,
  `x ^^^ (x &&& y)`; we use `andNot` for it.  The JS expression `x & -x`
  (lowest set bit) equals `x ^^^ (x &&& (x - 1))`; we use `lsbMask`.
* `while` loops over bitboards are modelled with explicit fuel.  Every such
  loop in the source clears one bit of (or walks monotonically along) a board
  of at most 64 bits per iteration, so a fuel of 64 is exact; the fuel-zero
  branch is unreachable on every input that occurs.
* Fallible operations return `Except Err α`, with `Err` naming the error
  classes of the source (`InvalidMoveError`, `IllegalMoveError`, generic
  `ValueError`, `IndexError`).  Error message strings are not modelled.
-/

namespace ChessTs

/-- JS `x & ~y` for non-negative bigints: clear in `x` every bit set in `y`. -/
def andNot (x y : Nat) : Nat := x ^^^ (x &&& y)

/-- JS `x & -x` for a non-negative bigint: the lowest set bit (0 for 0). -/
def lsbMask (x : Nat) : Nat := x ^^^ (x &&& (x - 1))

/-- The loop of `utils.bitLength` (`while (n) { n >>= 1n; length++ }`), with
fuel; 128 covers every value that occurs (bitboards stay below 2^72). -/
def bitLengthAux : Nat → Nat → Nat
  | 0, _ => 0
  | _, 0 => 0
  | fuel + 1, n => bitLengthAux fuel (n >>> 1) + 1

/-- `utils.bitLength`: number of bits needed to represent `n` (0 for 0). -/
def bitLength (n : Nat) : Nat := bitLengthAux 128 n

/-- `msb(bb) = bitLength(bb) - 1` as in the source; `-1` for the empty board,
so the result is an `Int`.  Every call site that can receive `0` is modelled
with this signed version. -/
def msbI (bb : Nat) : Int := (bitLength bb : Int) - 1

/-- `lsb(bb) = bitLength(bb & -bb) - 1`, signed like `msbI`. -/
def lsbI (bb : Nat) : Int := (bitLength (lsbMask bb) : Int) - 1

/-- `msb(bb) = bitLength(bb) - 1`; for a nonzero board this is the index of
the highest set bit (call sites that can receive `0` use `msbI`). -/
def msb (bb : Nat) : Nat := bitLength bb - 1

/-- `lsb(bb) = bitLength(bb & -bb) - 1` for a nonzero board. -/
def lsb (bb : Nat) : Nat := bitLength (lsbMask bb) - 1

/-- `utils.bitCount`: the loop `while (n) { n &= n - 1; count++ }`, with fuel
(64 suffices for every sub-2^64 board). -/
def popcountAux : Nat → Nat → Nat
  | 0, _ => 0
  | _, 0 => 0
  | fuel + 1, n => popcountAux fuel (n &&& (n - 1)) + 1

/-- `popcount(bb)`. -/
def popcount (bb : Nat) : Nat := popcountAux 64 bb

/-- `scanReversed`: yield the set bits of `bb` from highest to lowest
(`let r = bitLength(bb) - 1; yield r; bb ^= BB_SQUARES[r]`), with fuel. -/
def scanReversedAux : Nat → Nat → List Nat
  | 0, _ => []
  | _, 0 => []
  | fuel + 1, bb =>
    let r := bitLength bb - 1
    r :: scanReversedAux fuel (bb ^^^ (1 <<< r))

/-- The list of set bits of `bb`, highest first. -/
def scanReversed (bb : Nat) : List Nat := scanReversedAux 64 bb

/-- `squareFile(square) = square & 7`. -/
def squareFile (square : Nat) : Nat := square &&& 7

/-- `squareRank(square) = square >> 3`. -/
def squareRank (square : Nat) : Nat := square >>> 3

/-- `Math.abs(a - b)` for natural inputs. -/
def natDist (a b : Nat) : Nat := max a b - min a b

/-- `squareDistance`: Chebyshev distance between two squares. -/
def squareDistance (a b : Nat) : Nat :=
  max (natDist (squareFile a) (squareFile b)) (natDist (squareRank a) (squareRank b))

/-- `BB_EMPTY`. -/
def BB_EMPTY : Nat := 0

/-- `BB_ALL`. -/
def BB_ALL : Nat := 0xffffffffffffffff

/-- `BB_SQUARES[s] = 1n << s`. -/
def BB_SQUARE (s : Nat) : Nat := 1 <<< s

/-- `BB_FILES[i]`. -/
def BB_FILE (i : Nat) : Nat := 0x0101010101010101 <<< i

/-- `BB_RANKS[i]`. -/
def BB_RANK (i : Nat) : Nat := 0xff <<< (8 * i)

/-- `BB_RANK_1`. -/
def BB_RANK_1 : Nat := BB_RANK 0

/-- `BB_RANK_8`. -/
def BB_RANK_8 : Nat := BB_RANK 7

/-- `BB_BACKRANKS = BB_RANK_1 | BB_RANK_8`. -/
def BB_BACKRANKS : Nat := BB_RANK_1 ||| BB_RANK_8

/-- `BB_CORNERS = BB_A1 | BB_H1 | BB_A8 | BB_H8`. -/
def BB_CORNERS : Nat := BB_SQUARE 0 ||| BB_SQUARE 7 ||| BB_SQUARE 56 ||| BB_SQUARE 63

/-- One direction of `_slidingAttacks`: starting from `sq`, repeatedly step by
`delta`; stop on leaving the board or wrapping (Chebyshev displacement > 2),
and include-then-stop on the first occupied square. -/
def slidingAttacksGo (occupied : Nat) (delta : Int) : Nat → Int → Nat
  | 0, _ => 0
  | fuel + 1, sq =>
    let sq2 := sq + delta
    if 0 ≤ sq2 ∧ sq2 < 64 ∧ squareDistance sq2.toNat (sq2 - delta).toNat ≤ 2 then
      let bit := BB_SQUARE sq2.toNat
      if occupied &&& bit ≠ 0 then bit
      else bit ||| slidingAttacksGo occupied delta fuel sq2
    else 0

/-- `_slidingAttacks(square, occupied, deltas)`. -/
def slidingAttacks (square : Nat) (occupied : Nat) (deltas : List Int) : Nat :=
  deltas.foldl (fun attacks delta => attacks ||| slidingAttacksGo occupied delta 64 square) 0

/-- `_stepAttacks(square, deltas) = _slidingAttacks(square, BB_ALL, deltas)`. -/
def stepAttacks (square : Nat) (deltas : List Int) : Nat :=
  slidingAttacks square BB_ALL deltas

/-- `BB_KNIGHT_ATTACKS[sq]`. -/
def BB_KNIGHT_ATTACKS (sq : Nat) : Nat :=
  stepAttacks sq [17, 15, 10, 6, -17, -15, -10, -6]

/-- `BB_KING_ATTACKS[sq]`. -/
def BB_KING_ATTACKS (sq : Nat) : Nat :=
  stepAttacks sq [9, 8, 7, 1, -9, -8, -7, -1]

/-- `BB_PAWN_ATTACKS[c][sq]` with `c = colorIdx(color)`: index 0 (black) uses
deltas `[-7, -9]`, index 1 (white) uses `[7, 9]`. -/
def BB_PAWN_ATTACKS (color : Bool) (sq : Nat) : Nat :=
  stepAttacks sq (if color then [7, 9] else [-7, -9])

/-- `_edges(square)`. -/
def edges (square : Nat) : Nat :=
  andNot (BB_RANK_1 ||| BB_RANK_8) (BB_RANK (squareRank square)) |||
  andNot (BB_FILE 0 ||| BB_FILE 7) (BB_FILE (squareFile square))

/-- Deltas of the diagonal slider family. -/
def diagDeltas : List Int := [-9, -7, 7, 9]

/-- Deltas of the file slider family. -/
def fileDeltas : List Int := [-8, 8]

/-- Deltas of the rank slider family. -/
def rankDeltas : List Int := [-1, 1]

/-- `BB_DIAG_MASKS[sq]`: empty-board diagonal attacks with edges removed. -/
def BB_DIAG_MASKS (sq : Nat) : Nat := andNot (slidingAttacks sq 0 diagDeltas) (edges sq)

/-- `BB_FILE_MASKS[sq]`. -/
def BB_FILE_MASKS (sq : Nat) : Nat := andNot (slidingAttacks sq 0 fileDeltas) (edges sq)

/-- `BB_RANK_MASKS[sq]`. -/
def BB_RANK_MASKS (sq : Nat) : Nat := andNot (slidingAttacks sq 0 rankDeltas) (edges sq)

/-- `BB_DIAG_ATTACKS[sq].get(subset)`.  The source materialises, once per
square, the map `subset ↦ _slidingAttacks(sq, subset, deltas)` over all
carry-rippler subsets of `BB_DIAG_MASKS[sq]`; every lookup key in the source
is of the form `BB_DIAG_MASKS[sq] & occupied` (or `0`), which is such a
subset, so the lookup returns exactly this function of the key. -/
def BB_DIAG_ATTACKS (sq subset : Nat) : Nat := slidingAttacks sq subset diagDeltas

/-- `BB_FILE_ATTACKS[sq].get(subset)`; see `BB_DIAG_ATTACKS`. -/
def BB_FILE_ATTACKS (sq subset : Nat) : Nat := slidingAttacks sq subset fileDeltas

/-- `BB_RANK_ATTACKS[sq].get(subset)`; see `BB_DIAG_ATTACKS`. -/
def BB_RANK_ATTACKS (sq subset : Nat) : Nat := slidingAttacks sq subset rankDeltas

/-- `BB_RAYS[a][b]` as computed by `_rays()`: the full diagonal through `a`
and `b` (endpoints included) if diagonally aligned, else the full rank, else
the full file, else empty. -/
def BB_RAYS (a b : Nat) : Nat :=
  let bbA := BB_SQUARE a
  let bbB := BB_SQUARE b
  if BB_DIAG_ATTACKS a 0 &&& bbB ≠ 0 then
    (BB_DIAG_ATTACKS a 0 &&& BB_DIAG_ATTACKS b 0) ||| bbA ||| bbB
  else if BB_RANK_ATTACKS a 0 &&& bbB ≠ 0 then
    BB_RANK_ATTACKS a 0 ||| bbA
  else if BB_FILE_ATTACKS a 0 &&& bbB ≠ 0 then
    BB_FILE_ATTACKS a 0 ||| bbA
  else
    BB_EMPTY

/-- `ray(a, b)`. -/
def ray (a b : Nat) : Nat := BB_RAYS a b

/-- `between(a, b)`: mask the ray to the half-open span between `a` and `b`
(`BB_ALL << a ^ BB_ALL << b`, unmasked bigint shifts), then drop the lowest
bit — the open interval strictly between the two squares. -/
def between (a b : Nat) : Nat :=
  let bb := BB_RAYS a b &&& ((BB_ALL <<< a) ^^^ (BB_ALL <<< b))
  bb &&& (bb - 1)

/-- The claim's alignment notion: `a` and `b` share a rank, a file, or a
diagonal (equal absolute file- and rank-differences). -/
def sharesRankFileOrDiag (a b : Nat) : Prop :=
  squareRank a = squareRank b ∨ squareFile a = squareFile b ∨
    natDist (squareFile a) (squareFile b) = natDist (squareRank a) (squareRank b)

instance (a b : Nat) : Decidable (sharesRankFileOrDiag a b) := by
  unfold sharesRankFileOrDiag; infer_instance

/-- The error classes thrown by the source (`InvalidMoveError`,
`IllegalMoveError`, `AmbiguousMoveError`, generic `ValueError` and
`IndexError` conditions, and `AssertionError`). -/
inductive Err where
  | invalidMove
  | illegalMove
  | ambiguousMove
  | valueError
  | indexError
  | assertionError
deriving DecidableEq, Repr

/-- `WHITE`. -/
def WHITE : Bool := true

/-- `BLACK`. -/
def BLACK : Bool := false

/-- `PieceType.PAWN`. -/
def PAWN : Nat := 1

/-- `PieceType.KNIGHT`. -/
def KNIGHT : Nat := 2

/-- `PieceType.BISHOP`. -/
def BISHOP : Nat := 3

/-- `PieceType.ROOK`. -/
def ROOK : Nat := 4

/-- `PieceType.QUEEN`. -/
def QUEEN : Nat := 5

/-- `PieceType.KING`. -/
def KING : Nat := 6

/-- `PIECE_SYMBOLS = [null, 'p', 'n', 'b', 'r', 'q', 'k']`. -/
def PIECE_SYMBOLS : List (Option Char) :=
  [none, some 'p', some 'n', some 'b', some 'r', some 'q', some 'k']

/-- `PIECE_SYMBOLS.indexOf(c)` for a one-character string `c`: the JS `===`
comparison never matches the `null` entry, so this is a positional search for
`some c`; `none` models the `-1` result. -/
def pieceSymbolIndex (c : Char) : Option Nat :=
  PIECE_SYMBOLS.findIdx? (· = some c)

/-- `pieceSymbol(pieceType)`: the lower-case letter for piece types 1..6
(the source indexes `PIECE_SYMBOLS` and asserts non-null). -/
def pieceSymbolChar (pieceType : Nat) : Char :=
  if pieceType = PAWN then 'p'
  else if pieceType = KNIGHT then 'n'
  else if pieceType = BISHOP then 'b'
  else if pieceType = ROOK then 'r'
  else if pieceType = QUEEN then 'q'
  else 'k'

/-- `FILE_NAMES` as characters. -/
def FILE_NAMES : List Char := ['a', 'b', 'c', 'd', 'e', 'f', 'g', 'h']

/-- `RANK_NAMES` as characters. -/
def RANK_NAMES : List Char := ['1', '2', '3', '4', '5', '6', '7', '8']

/-- `SQUARE_NAMES = RANK_NAMES.flatMap(r => FILE_NAMES.map(f => f + r))`. -/
def SQUARE_NAMES : List String :=
  RANK_NAMES.flatMap (fun r => FILE_NAMES.map (fun f => String.mk [f, r]))

/-- `SQUARE_NAMES.indexOf(s)`, with `none` for the `-1` result. -/
def squareNameIndex (s : String) : Option Nat :=
  SQUARE_NAMES.findIdx? (· = s)

/-- `SQUARE_NAMES[square]` (in-range at every call site). -/
def SQUARE_NAME (square : Nat) : String := SQUARE_NAMES.getD square ""

/-- `squareMirror(square) = square ^ 0x38`; `SQUARES_180[i] = squareMirror(i)`. -/
def squareMirror (square : Nat) : Nat := square ^^^ 0x38

/-- `Move{fromSquare, toSquare, promotion?, drop?}`. -/
structure Move where
  fromSquare : Nat
  toSquare : Nat
  promotion : Option Nat
  drop : Option Nat
deriving DecidableEq, Repr

/-- `Move.null()`. -/
def Move.nullMove : Move := ⟨0, 0, none, none⟩

/-- `Move.bool()`: JS truthiness of `fromSquare || toSquare ||
promotion !== null || drop !== null`. -/
def Move.bool (m : Move) : Bool :=
  m.fromSquare != 0 || m.toSquare != 0 || m.promotion.isSome || m.drop.isSome

/-- `Move.uci()`. -/
def Move.uci (m : Move) : String :=
  match m.drop with
  | some d => String.mk [(pieceSymbolChar d).toUpper, '@'] ++ SQUARE_NAME m.toSquare
  | none =>
    match m.promotion with
    | some p => SQUARE_NAME m.fromSquare ++ SQUARE_NAME m.toSquare ++ String.mk [pieceSymbolChar p]
    | none =>
      if m.bool then SQUARE_NAME m.fromSquare ++ SQUARE_NAME m.toSquare
      else "0000"

/-- `Move.fromUci(uci)`. -/
def Move.fromUci (uci : String) : Except Err Move :=
  if uci = "0000" then .ok Move.nullMove
  else
    let cs := uci.toList
    if cs.length = 4 ∧ cs.getD 1 ' ' = '@' then
      let dropIdx := pieceSymbolIndex ((cs.getD 0 ' ').toLower)
      let squareIdx := squareNameIndex (String.mk (cs.drop 2))
      match dropIdx, squareIdx with
      | some dropPiece, some square => .ok ⟨square, square, none, some dropPiece⟩
      | _, _ => .error .invalidMove
    else if 4 ≤ cs.length ∧ cs.length ≤ 5 then
      let fromIdx := squareNameIndex (String.mk (cs.take 2))
      let toIdx := squareNameIndex (String.mk ((cs.drop 2).take 2))
      -- `promotion = uci.length == 5 ? PIECE_SYMBOLS.indexOf(uci[4]) : null`
      -- (no lower-casing, no range restriction beyond membership in the
      -- symbol list); `-1` is modelled by the `.error` row of the match
      if cs.length = 5 then
        match fromIdx, toIdx, pieceSymbolIndex (cs.getD 4 ' ') with
        | some f, some t, some p =>
          if f = t then .error .invalidMove else .ok ⟨f, t, some p, none⟩
        | _, _, _ => .error .invalidMove
      else
        match fromIdx, toIdx with
        | some f, some t =>
          if f = t then .error .invalidMove else .ok ⟨f, t, none, none⟩
        | _, _ => .error .invalidMove
    else .error .invalidMove

/-- The saved snapshot `_BoardState`: the twelve bitboards and the scalar
fields, captured by value before a push and restored by `pop`. -/
structure BoardState where
  pawns : Nat
  knights : Nat
  bishops : Nat
  rooks : Nat
  queens : Nat
  kings : Nat
  occupiedW : Nat
  occupiedB : Nat
  occupied : Nat
  promoted : Nat
  turn : Bool
  castlingRights : Nat
  epSquare : Option Nat
  halfmoveClock : Nat
  fullmoveNumber : Nat
deriving DecidableEq, Repr

/-- The `Board` class: `BaseBoard` piece-placement state plus turn, castling
rights, en-passant square, clocks, Chess960 flag and the move/state stacks.
The TS arrays `moveStack`/`_stack` push and pop at the same end; they are
modelled as lists whose head is the top of the stack. -/
structure Board where
  pawns : Nat
  knights : Nat
  bishops : Nat
  rooks : Nat
  queens : Nat
  kings : Nat
  occupiedW : Nat
  occupiedB : Nat
  occupied : Nat
  promoted : Nat
  turn : Bool
  castlingRights : Nat
  epSquare : Option Nat
  halfmoveClock : Nat
  fullmoveNumber : Nat
  chess960 : Bool
  moveStack : List Move
  stack : List BoardState
deriving DecidableEq, Repr

/-- `this.occupiedCo[colorIdx(color)]` (index 1 is White). -/
def Board.occupiedCo (b : Board) (color : Bool) : Nat :=
  if color then b.occupiedW else b.occupiedB

/-- `new _BoardState(board)`. -/
def BoardState.fromBoard (b : Board) : BoardState :=
  ⟨b.pawns, b.knights, b.bishops, b.rooks, b.queens, b.kings,
   b.occupiedW, b.occupiedB, b.occupied, b.promoted,
   b.turn, b.castlingRights, b.epSquare, b.halfmoveClock, b.fullmoveNumber⟩

/-- `_BoardState.restore(board)`: overwrite every saved field. -/
def BoardState.restore (st : BoardState) (b : Board) : Board :=
  { b with
    pawns := st.pawns, knights := st.knights, bishops := st.bishops,
    rooks := st.rooks, queens := st.queens, kings := st.kings,
    occupiedW := st.occupiedW, occupiedB := st.occupiedB,
    occupied := st.occupied, promoted := st.promoted,
    turn := st.turn, castlingRights := st.castlingRights,
    epSquare := st.epSquare, halfmoveClock := st.halfmoveClock,
    fullmoveNumber := st.fullmoveNumber }

/-- `pieceTypeAt(square)`. -/
def Board.pieceTypeAt (b : Board) (square : Nat) : Option Nat :=
  let mask := BB_SQUARE square
  if b.occupied &&& mask = 0 then none
  else if b.pawns &&& mask ≠ 0 then some PAWN
  else if b.knights &&& mask ≠ 0 then some KNIGHT
  else if b.bishops &&& mask ≠ 0 then some BISHOP
  else if b.rooks &&& mask ≠ 0 then some ROOK
  else if b.queens &&& mask ≠ 0 then some QUEEN
  else some KING

/-- `piecesMask(pieceType, color)` (the source throws on an out-of-range
piece type; every call site passes 1..6, so that branch is unreachable and
modelled as `0`). -/
def Board.piecesMask (b : Board) (pieceType : Nat) (color : Bool) : Nat :=
  let bb :=
    if pieceType = PAWN then b.pawns
    else if pieceType = KNIGHT then b.knights
    else if pieceType = BISHOP then b.bishops
    else if pieceType = ROOK then b.rooks
    else if pieceType = QUEEN then b.queens
    else if pieceType = KING then b.kings
    else 0
  bb &&& b.occupiedCo color

/-- `king(color)`: the non-promoted king of the given color, if any
(`kingMask ? msb(kingMask) : null`). -/
def Board.king (b : Board) (color : Bool) : Option Nat :=
  let kingMask := andNot (b.occupiedCo color &&& b.kings) b.promoted
  if kingMask ≠ 0 then some (msb kingMask) else none

/-- `attacksMask(square)`. -/
def Board.attacksMask (b : Board) (square : Nat) : Nat :=
  let bbSquare := BB_SQUARE square
  if bbSquare &&& b.pawns ≠ 0 then
    let color := bbSquare &&& b.occupiedW ≠ 0
    BB_PAWN_ATTACKS color square
  else if bbSquare &&& b.knights ≠ 0 then BB_KNIGHT_ATTACKS square
  else if bbSquare &&& b.kings ≠ 0 then BB_KING_ATTACKS square
  else
    let attacks :=
      if bbSquare &&& b.bishops ≠ 0 ∨ bbSquare &&& b.queens ≠ 0 then
        BB_DIAG_ATTACKS square (BB_DIAG_MASKS square &&& b.occupied)
      else 0
    if bbSquare &&& b.rooks ≠ 0 ∨ bbSquare &&& b.queens ≠ 0 then
      attacks ||| BB_RANK_ATTACKS square (BB_RANK_MASKS square &&& b.occupied)
              ||| BB_FILE_ATTACKS square (BB_FILE_MASKS square &&& b.occupied)
    else attacks

/-- `_attackersMask(color, square, occupied)`. -/
def Board._attackersMask (b : Board) (color : Bool) (square : Nat) (occupied : Nat) : Nat :=
  let rankPieces := BB_RANK_MASKS square &&& occupied
  let filePieces := BB_FILE_MASKS square &&& occupied
  let diagPieces := BB_DIAG_MASKS square &&& occupied
  let queensAndRooks := b.queens ||| b.rooks
  let queensAndBishops := b.queens ||| b.bishops
  let attackers :=
    (BB_KING_ATTACKS square &&& b.kings) |||
    (BB_KNIGHT_ATTACKS square &&& b.knights) |||
    (BB_RANK_ATTACKS square rankPieces &&& queensAndRooks) |||
    (BB_FILE_ATTACKS square filePieces &&& queensAndRooks) |||
    (BB_DIAG_ATTACKS square diagPieces &&& queensAndBishops) |||
    (BB_PAWN_ATTACKS (!color) square &&& b.pawns)
  attackers &&& b.occupiedCo color

/-- `attackersMask(color, square)`. -/
def Board.attackersMask (b : Board) (color : Bool) (square : Nat) : Nat :=
  b._attackersMask color square b.occupied

/-- One axis of `pinMask`: `none` means the queried square is not on this
axis through the king (continue to the next axis in the source loop). -/
def Board.pinMaskAxis (b : Board) (color : Bool) (square king : Nat)
    (attacksFn : Nat → Nat → Nat) (sliders : Nat) : Option Nat :=
  let squareMask := BB_SQUARE square
  let rays := attacksFn king 0
  if rays &&& squareMask ≠ 0 then
    let snipers := rays &&& sliders &&& b.occupiedCo (!color)
    match (scanReversed snipers).find? (fun sniper =>
        between sniper king &&& (b.occupied ||| squareMask) = squareMask) with
    | some sniper => some (ray king sniper)
    | none => some BB_ALL
  else none

/-- `pinMask(color, square)`: the first axis (file, rank, diagonal, in that
order) through the king containing the square decides; finding no pinning
sniper on it (or no applicable axis, or no king) yields `BB_ALL`. -/
def Board.pinMask (b : Board) (color : Bool) (square : Nat) : Nat :=
  match b.king color with
  | none => BB_ALL
  | some king =>
    match b.pinMaskAxis color square king BB_FILE_ATTACKS (b.rooks ||| b.queens) with
    | some r => r
    | none =>
      match b.pinMaskAxis color square king BB_RANK_ATTACKS (b.rooks ||| b.queens) with
      | some r => r
      | none =>
        match b.pinMaskAxis color square king BB_DIAG_ATTACKS (b.bishops ||| b.queens) with
        | some r => r
        | none => BB_ALL

/-- `_removePieceAt(square)`: the updated board and the removed piece type. -/
def Board._removePieceAt (b : Board) (square : Nat) : Board × Option Nat :=
  let pieceType := b.pieceTypeAt square
  let mask := BB_SQUARE square
  match pieceType with
  | none => (b, none)
  | some pt =>
    let b :=
      if pt = PAWN then { b with pawns := b.pawns ^^^ mask }
      else if pt = KNIGHT then { b with knights := b.knights ^^^ mask }
      else if pt = BISHOP then { b with bishops := b.bishops ^^^ mask }
      else if pt = ROOK then { b with rooks := b.rooks ^^^ mask }
      else if pt = QUEEN then { b with queens := b.queens ^^^ mask }
      else { b with kings := b.kings ^^^ mask }
    ({ b with
        occupied := b.occupied ^^^ mask,
        occupiedW := andNot b.occupiedW mask,
        occupiedB := andNot b.occupiedB mask,
        promoted := andNot b.promoted mask },
     some pt)

/-- `_setPieceAt(square, pieceType, color, promoted)`.  The `switch` default
(out-of-range piece type) returns after the removal without placing anything;
every call site passes 1..6. -/
def Board._setPieceAt (b : Board) (square pieceType : Nat) (color : Bool)
    (promotedFlag : Bool) : Board :=
  let b := (b._removePieceAt square).1
  let mask := BB_SQUARE square
  if pieceType < PAWN ∨ KING < pieceType then b
  else
    let b :=
      if pieceType = PAWN then { b with pawns := b.pawns ||| mask }
      else if pieceType = KNIGHT then { b with knights := b.knights ||| mask }
      else if pieceType = BISHOP then { b with bishops := b.bishops ||| mask }
      else if pieceType = ROOK then { b with rooks := b.rooks ||| mask }
      else if pieceType = QUEEN then { b with queens := b.queens ||| mask }
      else { b with kings := b.kings ||| mask }
    let b := { b with occupied := b.occupied ^^^ mask }
    let b :=
      if color then { b with occupiedW := b.occupiedW ^^^ mask }
      else { b with occupiedB := b.occupiedB ^^^ mask }
    if promotedFlag then { b with promoted := b.promoted ^^^ mask } else b

/-- `isVariantEnd()` (`false` for the base `Board`). -/
def Board.isVariantEnd (_b : Board) : Bool := false

/-- `isVariantLoss()`. -/
def Board.isVariantLoss (_b : Board) : Bool := false

/-- `isVariantWin()`. -/
def Board.isVariantWin (_b : Board) : Bool := false

/-- `cleanCastlingRights()`.  The body begins with

```ts
if (this._stack) {
  return this.castlingRights;
}
```

`this._stack` is a JS array, and arrays — empty or not — are always truthy
(the Python original tested `if self._stack:`, i.e. non-emptiness), so the
early return is always taken and the filtering below it is dead code.  The
dead filtering branch is transcribed as `cleanCastlingRightsFiltered`. -/
def Board.cleanCastlingRights (b : Board) : Nat := b.castlingRights

/-- The dead filtering branch of `cleanCastlingRights()` (standard-chess
case, which is what the specification describes): stored rights restricted to
own rooks on the back rank, to the corner squares, and gated on the
non-promoted king standing on E1/E8. -/
def Board.cleanCastlingRightsFiltered (b : Board) : Nat :=
  let castling := b.castlingRights &&& b.rooks
  let whiteCastling := castling &&& BB_RANK_1 &&& b.occupiedW
  let blackCastling := castling &&& BB_RANK_8 &&& b.occupiedB
  if ¬b.chess960 then
    let whiteCastling := whiteCastling &&& (BB_SQUARE 0 ||| BB_SQUARE 7)
    let blackCastling := blackCastling &&& (BB_SQUARE 56 ||| BB_SQUARE 63)
    let whiteCastling :=
      if andNot (b.occupiedW &&& b.kings) b.promoted &&& BB_SQUARE 4 = 0 then 0
      else whiteCastling
    let blackCastling :=
      if andNot (b.occupiedB &&& b.kings) b.promoted &&& BB_SQUARE 60 = 0 then 0
      else blackCastling
    whiteCastling ||| blackCastling
  else
    let whiteKingMask := andNot (b.occupiedW &&& b.kings &&& BB_RANK_1) b.promoted
    let blackKingMask := andNot (b.occupiedB &&& b.kings &&& BB_RANK_8) b.promoted
    let whiteCastling := if whiteKingMask = 0 then 0 else whiteCastling
    let blackCastling := if blackKingMask = 0 then 0 else blackCastling
    let whiteASide := lsbMask whiteCastling
    let whiteHSide := if whiteCastling ≠ 0 then BB_SQUARE (msb whiteCastling) else 0
    let whiteASide := if whiteASide ≠ 0 ∧ msb whiteASide > msb whiteKingMask then 0 else whiteASide
    let whiteHSide := if whiteHSide ≠ 0 ∧ msb whiteHSide < msb whiteKingMask then 0 else whiteHSide
    let blackASide := lsbMask blackCastling
    let blackHSide := if blackCastling ≠ 0 then BB_SQUARE (msb blackCastling) else 0
    let blackASide := if blackASide ≠ 0 ∧ msb blackASide > msb blackKingMask then 0 else blackASide
    let blackHSide := if blackHSide ≠ 0 ∧ msb blackHSide < msb blackKingMask then 0 else blackHSide
    blackASide ||| blackHSide ||| whiteASide ||| whiteHSide

/-- `isEnPassant(move)` (`===` between `epSquare : Square | null` and the
target square never equates `null` with a number). -/
def Board.isEnPassant (b : Board) (move : Move) : Bool :=
  b.epSquare == some move.toSquare &&
  (b.pawns &&& BB_SQUARE move.fromSquare) != 0 &&
  (natDist move.toSquare move.fromSquare == 7 || natDist move.toSquare move.fromSquare == 9) &&
  (b.occupied &&& BB_SQUARE move.toSquare) == 0

/-- `isCapture(move)`. -/
def Board.isCapture (b : Board) (move : Move) : Bool :=
  let touched := BB_SQUARE move.fromSquare ^^^ BB_SQUARE move.toSquare
  (touched &&& b.occupiedCo (!b.turn)) != 0 || b.isEnPassant move

/-- `isZeroing(move)`. -/
def Board.isZeroing (b : Board) (move : Move) : Bool :=
  let touched := BB_SQUARE move.fromSquare ^^^ BB_SQUARE move.toSquare
  (touched &&& b.pawns) != 0 || (touched &&& b.occupiedCo (!b.turn)) != 0 ||
    move.drop == some PAWN

/-- `isCastling(move)`. -/
def Board.isCastling (b : Board) (move : Move) : Bool :=
  if b.kings &&& BB_SQUARE move.fromSquare ≠ 0 then
    natDist (squareFile move.fromSquare) (squareFile move.toSquare) > 1 ||
      (b.rooks &&& b.occupiedCo b.turn &&& BB_SQUARE move.toSquare) != 0
  else false

/-- `_fromChess960(chess960, fromSquare, toSquare, promotion, drop)`:
translate the canonical king-to-rook castling encoding to king-two-squares
when not in Chess960 mode. -/
def Board._fromChess960 (b : Board) (chess960 : Bool) (fromSquare toSquare : Nat)
    (promotion drop : Option Nat) : Move :=
  if ¬chess960 ∧ promotion = none ∧ drop = none then
    if fromSquare = 4 ∧ b.kings &&& BB_SQUARE 4 ≠ 0 then
      if toSquare = 7 then ⟨4, 6, none, none⟩
      else if toSquare = 0 then ⟨4, 2, none, none⟩
      else ⟨fromSquare, toSquare, promotion, drop⟩
    else if fromSquare = 60 ∧ b.kings &&& BB_SQUARE 60 ≠ 0 then
      if toSquare = 63 then ⟨60, 62, none, none⟩
      else if toSquare = 56 then ⟨60, 58, none, none⟩
      else ⟨fromSquare, toSquare, promotion, drop⟩
    else ⟨fromSquare, toSquare, promotion, drop⟩
  else ⟨fromSquare, toSquare, promotion, drop⟩

/-- `_toChess960(move)`: translate king-two-squares castling to the canonical
king-to-rook encoding. -/
def Board._toChess960 (b : Board) (move : Move) : Move :=
  if move.fromSquare = 4 ∧ b.kings &&& BB_SQUARE 4 ≠ 0 then
    if move.toSquare = 6 ∧ b.rooks &&& BB_SQUARE 6 = 0 then ⟨4, 7, none, none⟩
    else if move.toSquare = 2 ∧ b.rooks &&& BB_SQUARE 2 = 0 then ⟨4, 0, none, none⟩
    else move
  else if move.fromSquare = 60 ∧ b.kings &&& BB_SQUARE 60 ≠ 0 then
    if move.toSquare = 62 ∧ b.rooks &&& BB_SQUARE 62 = 0 then ⟨60, 63, none, none⟩
    else if move.toSquare = 58 ∧ b.rooks &&& BB_SQUARE 58 = 0 then ⟨60, 56, none, none⟩
    else move
  else move

/-- `_attackedForKing(path, occupied)`. -/
def Board._attackedForKing (b : Board) (path occupied : Nat) : Bool :=
  (scanReversed path).any (fun sq => b._attackersMask (!b.turn) sq occupied != 0)

/-- `generateCastlingMoves(fromMask, toMask)` as a list (the source is a lazy
generator over the candidate rook squares, highest first). -/
def Board.generateCastlingMoves (b : Board) (fromMask toMask : Nat) : List Move :=
  if b.isVariantEnd then [] else
  let backrank := if b.turn then BB_RANK_1 else BB_RANK_8
  let king0 :=
    andNot (b.occupiedCo b.turn &&& b.kings) b.promoted &&& backrank &&& fromMask
  let king := lsbMask king0
  if king = 0 then [] else
  let bbC := BB_FILE 2 &&& backrank
  let bbD := BB_FILE 3 &&& backrank
  let bbF := BB_FILE 5 &&& backrank
  let bbG := BB_FILE 6 &&& backrank
  (scanReversed (b.cleanCastlingRights &&& backrank &&& toMask)).filterMap
    (fun candidate =>
      let rook := BB_SQUARE candidate
      let aSide := rook < king
      let kingTo := if aSide then bbC else bbG
      let rookTo := if aSide then bbD else bbF
      let kingPath := between (msb king) (msb kingTo)
      let rookPath := between candidate (msb rookTo)
      if ¬((b.occupied ^^^ king ^^^ rook) &&& (kingPath ||| rookPath ||| kingTo ||| rookTo) ≠ 0 ∨
            b._attackedForKing (kingPath ||| king) (b.occupied ^^^ king) ∨
            b._attackedForKing kingTo (b.occupied ^^^ king ^^^ rook ^^^ rookTo)) then
        some (b._fromChess960 b.chess960 (msb king) candidate none none)
      else none)

/-- `generatePseudoLegalEp(fromMask, toMask)` (the leading `!this.epSquare`
test uses JS truthiness, so an `epSquare` of `0` also bails out). -/
def Board.generatePseudoLegalEp (b : Board) (fromMask toMask : Nat) : List Move :=
  match b.epSquare with
  | none => []
  | some ep =>
    if ep = 0 then []
    else if BB_SQUARE ep &&& toMask = 0 then []
    else if BB_SQUARE ep &&& b.occupied ≠ 0 then []
    else
      let capturers :=
        b.pawns &&& b.occupiedCo b.turn &&& fromMask &&&
          BB_PAWN_ATTACKS (!b.turn) ep &&& BB_RANK (if b.turn then 4 else 3)
      (scanReversed capturers).map (fun capturer => Move.mk capturer ep none none)

/-- The four promotion moves (Q, R, B, N, in source order) or the single
plain move emitted for a pawn arriving at `toSquare`. -/
def pawnMoveEmissions (fromSquare toSquare : Nat) : List Move :=
  if squareRank toSquare = 0 ∨ squareRank toSquare = 7 then
    [⟨fromSquare, toSquare, some QUEEN, none⟩,
     ⟨fromSquare, toSquare, some ROOK, none⟩,
     ⟨fromSquare, toSquare, some BISHOP, none⟩,
     ⟨fromSquare, toSquare, some KNIGHT, none⟩]
  else [⟨fromSquare, toSquare, none, none⟩]

/-- The non-pawn piece-move segment of `generatePseudoLegalMoves`. -/
def Board.pseudoLegalPieceMoves (b : Board) (fromMask toMask : Nat) : List Move :=
  let ourPieces := b.occupiedCo b.turn
  let nonPawns := andNot ourPieces b.pawns &&& fromMask
  (scanReversed nonPawns).flatMap (fun fromSquare =>
    let moves := andNot (b.attacksMask fromSquare) ourPieces &&& toMask
    (scanReversed moves).map (fun toSquare => Move.mk fromSquare toSquare none none))

/-- The pawn-capture segment of `generatePseudoLegalMoves`. -/
def Board.pseudoLegalPawnCaptures (b : Board) (pawns toMask : Nat) : List Move :=
  (scanReversed pawns).flatMap (fun fromSquare =>
    let targets :=
      BB_PAWN_ATTACKS b.turn fromSquare &&& b.occupiedCo (!b.turn) &&& toMask
    (scanReversed targets).flatMap (fun toSquare => pawnMoveEmissions fromSquare toSquare))

/-- The single-push segment of `generatePseudoLegalMoves`
(`fromSquare = toSquare + (turn === BLACK ? 8 : -8)`). -/
def Board.pseudoLegalSinglePushes (b : Board) (singleMoves : Nat) : List Move :=
  (scanReversed singleMoves).flatMap (fun toSquare =>
    let fromSquare := if b.turn then toSquare - 8 else toSquare + 8
    pawnMoveEmissions fromSquare toSquare)

/-- The double-push segment of `generatePseudoLegalMoves`. -/
def Board.pseudoLegalDoublePushes (b : Board) (doubleMoves : Nat) : List Move :=
  (scanReversed doubleMoves).map (fun toSquare =>
    let fromSquare := if b.turn then toSquare - 16 else toSquare + 16
    Move.mk fromSquare toSquare none none)

/-- `generatePseudoLegalMoves(fromMask, toMask)` as a list, in emission
order: non-pawn piece moves, castling (when `fromMask` meets the kings),
then — when the side to move has pawns in `fromMask` — pawn captures, single
pushes, double pushes, and en-passant captures (`if (this.epSquare)` is JS
truthiness, so `0` is treated like `null`). -/
def Board.generatePseudoLegalMoves (b : Board) (fromMask toMask : Nat) : List Move :=
  let pieceMoves := b.pseudoLegalPieceMoves fromMask toMask
  let castlingMoves :=
    if fromMask &&& b.kings ≠ 0 then b.generateCastlingMoves fromMask toMask else []
  let pawns := b.pawns &&& b.occupiedCo b.turn &&& fromMask
  if pawns = 0 then pieceMoves ++ castlingMoves
  else
    let captures := b.pseudoLegalPawnCaptures pawns toMask
    let singleMoves0 :=
      if b.turn then andNot (pawns <<< 8) b.occupied
      else andNot (pawns >>> 8) b.occupied
    let doubleMoves0 :=
      if b.turn then andNot (singleMoves0 <<< 8) b.occupied &&& (BB_RANK 2 ||| BB_RANK 3)
      else andNot (singleMoves0 >>> 8) b.occupied &&& (BB_RANK 5 ||| BB_RANK 4)
    let singleMoves := singleMoves0 &&& toMask
    let doubleMoves := doubleMoves0 &&& toMask
    let singles := b.pseudoLegalSinglePushes singleMoves
    let doubles := b.pseudoLegalDoublePushes doubleMoves
    let eps :=
      match b.epSquare with
      | some ep => if ep ≠ 0 then b.generatePseudoLegalEp fromMask toMask else []
      | none => []
    pieceMoves ++ castlingMoves ++ captures ++ singles ++ doubles ++ eps

/-- `checkersMask()`. -/
def Board.checkersMask (b : Board) : Nat :=
  match b.king b.turn with
  | none => 0
  | some king => b.attackersMask (!b.turn) king

/-- `isCheck()`. -/
def Board.isCheck (b : Board) : Bool := b.checkersMask != 0

/-- `_sliderBlockers(king)`. -/
def Board._sliderBlockers (b : Board) (king : Nat) : Nat :=
  let rooksAndQueens := b.rooks ||| b.queens
  let bishopsAndQueens := b.bishops ||| b.queens
  let snipers :=
    (BB_RANK_ATTACKS king 0 &&& rooksAndQueens) |||
    (BB_FILE_ATTACKS king 0 &&& rooksAndQueens) |||
    (BB_DIAG_ATTACKS king 0 &&& bishopsAndQueens)
  let blockers :=
    (scanReversed (snipers &&& b.occupiedCo (!b.turn))).foldl
      (fun blockers sniper =>
        let bBetween := between king sniper &&& b.occupied
        if bBetween ≠ 0 ∧ BB_SQUARE (msb bBetween) = bBetween then blockers ||| bBetween
        else blockers) 0
  blockers &&& b.occupiedCo b.turn

/-- `_epSkewered(king, capturer)` (only called with `epSquare` set). -/
def Board._epSkewered (b : Board) (king capturer : Nat) : Bool :=
  match b.epSquare with
  | none => false
  | some ep =>
    let lastDouble := if b.turn then ep - 8 else ep + 8
    let occupancy :=
      andNot (andNot b.occupied (BB_SQUARE lastDouble)) (BB_SQUARE capturer) |||
        BB_SQUARE ep
    let horizontalAttackers := b.occupiedCo (!b.turn) &&& (b.rooks ||| b.queens)
    if BB_RANK_ATTACKS king (BB_RANK_MASKS king &&& occupancy) &&& horizontalAttackers ≠ 0 then
      true
    else
      let diagonalAttackers := b.occupiedCo (!b.turn) &&& (b.bishops ||| b.queens)
      BB_DIAG_ATTACKS king (BB_DIAG_MASKS king &&& occupancy) &&& diagonalAttackers != 0

/-- `isAttackedBy(color, square)`. -/
def Board.isAttackedBy (b : Board) (color : Bool) (square : Nat) : Bool :=
  b.attackersMask color square != 0

/-- `_isSafe(king, blockers, move)`. -/
def Board._isSafe (b : Board) (king : Nat) (blockers : Nat) (move : Move) : Bool :=
  if move.fromSquare = king then
    if b.isCastling move then true
    else !(b.isAttackedBy (!b.turn) move.toSquare)
  else if b.isEnPassant move then
    (b.pinMask b.turn move.fromSquare &&& BB_SQUARE move.toSquare) != 0 &&
      !(b._epSkewered king move.fromSquare)
  else
    (blockers &&& BB_SQUARE move.fromSquare) == 0 ||
      (ray move.fromSquare move.toSquare &&& BB_SQUARE king) != 0

/-- `_generateEvasions(king, checkers, fromMask, toMask)` as a list: king
steps out of every checking slider's extended ray first; with exactly one
checker, also blocking/capturing moves (pseudo-legal moves of the non-kings
into `between(king, checker) | checker`) and the en-passant capture of a
just-double-pushed checking pawn. -/
def Board._generateEvasions (b : Board) (king : Nat) (checkers fromMask toMask : Nat) :
    List Move :=
  let sliders := checkers &&& (b.bishops ||| b.rooks ||| b.queens)
  let attacked :=
    (scanReversed sliders).foldl
      (fun attacked checker => attacked ||| andNot (ray king checker) (BB_SQUARE checker)) 0
  let kingMoves :=
    if BB_SQUARE king &&& fromMask ≠ 0 then
      (scanReversed (andNot (andNot (BB_KING_ATTACKS king) (b.occupiedCo b.turn)) attacked &&& toMask)).map
        (fun toSquare => Move.mk king toSquare none none)
    else []
  let checker := msb checkers
  let rest :=
    if BB_SQUARE checker = checkers then
      let target := between king checker ||| checkers
      let blockOrCapture :=
        b.generatePseudoLegalMoves (andNot fromMask b.kings) (target &&& toMask)
      let epMoves :=
        match b.epSquare with
        | some ep =>
          if ep ≠ 0 ∧ BB_SQUARE ep &&& target = 0 then
            let lastDouble := if b.turn then ep - 8 else ep + 8
            if lastDouble = checker then b.generatePseudoLegalEp fromMask toMask else []
          else []
        | none => []
      blockOrCapture ++ epMoves
    else []
  kingMoves ++ rest

/-- `generateLegalMoves(fromMask, toMask)` as a list. -/
def Board.generateLegalMoves (b : Board) (fromMask toMask : Nat) : List Move :=
  if b.isVariantEnd then [] else
  let kingMask := b.kings &&& b.occupiedCo b.turn
  if kingMask ≠ 0 then
    let king := msb kingMask
    let blockers := b._sliderBlockers king
    let checkers := b.attackersMask (!b.turn) king
    if checkers ≠ 0 then
      (b._generateEvasions king checkers fromMask toMask).filter
        (fun move => b._isSafe king blockers move)
    else
      (b.generatePseudoLegalMoves fromMask toMask).filter
        (fun move => b._isSafe king blockers move)
  else b.generatePseudoLegalMoves fromMask toMask

/-- `utils.iterIncludes(iterable, value)` compares elements against `value`
with the JS `===` operator, which on `Move` objects is reference equality.
At every call site in the source (`isPseudoLegal`, `isIntoCheck`) the
iterable is a generator that yields freshly constructed `new Move(...)`
objects (also via `_fromChess960`, which always constructs), so no element is
ever the same object as the externally supplied `value` and the call returns
`false`. -/
def iterIncludesMoves (_iterable : List Move) (_value : Move) : Bool := false

/-- `isPseudoLegal(move)`. -/
def Board.isPseudoLegal (b : Board) (move : Move) : Bool :=
  if !move.bool then false
  else if move.drop.isSome then false
  else
    match b.pieceTypeAt move.fromSquare with
    | none => false
    | some piece =>
      let fromMask := BB_SQUARE move.fromSquare
      let toMask := BB_SQUARE move.toSquare
      if b.occupiedCo b.turn &&& fromMask = 0 then false
      else if move.promotion.isSome ∧
          (piece ≠ PAWN ∨ (b.turn ∧ squareRank move.toSquare ≠ 7) ∨
            (¬b.turn ∧ squareRank move.toSquare ≠ 0)) then false
      else
        let castlingHit :=
          if piece = KING then
            let move2 := b._fromChess960 b.chess960 move.fromSquare move.toSquare none none
            iterIncludesMoves (b.generateCastlingMoves BB_ALL BB_ALL) move2
          else false
        if castlingHit then true
        else if b.occupiedCo b.turn &&& toMask ≠ 0 then false
        else if piece = PAWN then
          iterIncludesMoves (b.generatePseudoLegalMoves fromMask toMask) move
        else b.attacksMask move.fromSquare &&& toMask != 0

/-- `isIntoCheck(move)`. -/
def Board.isIntoCheck (b : Board) (move : Move) : Bool :=
  match b.king b.turn with
  | none => false
  | some king =>
    let checkers := b.attackersMask (!b.turn) king
    if checkers ≠ 0 ∧
        !(iterIncludesMoves
          (b._generateEvasions king checkers (BB_SQUARE move.fromSquare)
            (BB_SQUARE move.toSquare)) move) then true
    else !(b._isSafe king (b._sliderBlockers king) move)

/-- `isLegal(move)`. -/
def Board.isLegal (b : Board) (move : Move) : Bool :=
  !b.isVariantEnd && b.isPseudoLegal move && !(b.isIntoCheck move)

/-- `isCheckmate()` (`iterAny` over `Move` objects tests JS truthiness, and
objects are always truthy, so it is emptiness of the legal move list). -/
def Board.isCheckmate (b : Board) : Bool :=
  if !b.isCheck then false
  else (b.generateLegalMoves BB_ALL BB_ALL).isEmpty

/-- `parseUci(uci)`.  Unlike the Python original there is no early return
for the parsed null move; it flows into the legality check. -/
def Board.parseUci (b : Board) (uci : String) : Except Err Move := do
  let move0 ← Move.fromUci uci
  let move1 := b._toChess960 move0
  let move := b._fromChess960 b.chess960 move1.fromSquare move1.toSquare
    move1.promotion move1.drop
  if !b.isLegal move then .error .illegalMove
  else .ok move

/-- The opening block of `push(move)` (with `move` already normalised):
snapshot the state, overwrite the castling rights with the cleaned ones,
record the de-normalised move and the snapshot on the stacks, clear the
en-passant square, and advance the clocks. -/
def Board.pushPrelude (b : Board) (move : Move) : Board :=
  let boardState := BoardState.fromBoard b
  let b := { b with castlingRights := b.cleanCastlingRights }
  let b := { b with
    moveStack :=
      (b._fromChess960 b.chess960 move.fromSquare move.toSquare move.promotion move.drop) ::
        b.moveStack,
    stack := boardState :: b.stack }
  let b := { b with epSquare := none }
  let b := { b with halfmoveClock := b.halfmoveClock + 1 }
  if b.turn = BLACK then { b with fullmoveNumber := b.fullmoveNumber + 1 } else b

/-- The castling-rights maintenance block of `push`: clear the touched
squares, a moving non-promoted king clears its whole back rank, and a
captured non-promoted king on its back rank clears that color's rights. -/
def Board.pushCastlingRightsUpdate (b : Board) (move : Move) (pieceType0 : Nat)
    (promotedFlag : Bool) (capturedPieceType : Option Nat) : Board :=
  let fromBb := BB_SQUARE move.fromSquare
  let toBb := BB_SQUARE move.toSquare
  let b := { b with castlingRights := andNot (andNot b.castlingRights toBb) fromBb }
  if pieceType0 = KING ∧ ¬promotedFlag then
    if b.turn then { b with castlingRights := andNot b.castlingRights BB_RANK_1 }
    else { b with castlingRights := andNot b.castlingRights BB_RANK_8 }
  else if capturedPieceType = some KING ∧ b.promoted &&& toBb = 0 then
    if b.turn ∧ squareRank move.toSquare = 7 then
      { b with castlingRights := andNot b.castlingRights BB_RANK_8 }
    else if b.turn = false ∧ squareRank move.toSquare = 0 then
      { b with castlingRights := andNot b.castlingRights BB_RANK_1 }
    else b
  else b

/-- The special-pawn-moves block of `push`: a double push sets the
en-passant square; a move onto the remembered en-passant square by a pawn
that changed file onto an empty square removes the en-passant-captured pawn
one rank behind.  (`captureSquare`/`capturedPieceType` are also adjusted in
the source, but they feed only `_pushCapture`, a no-op in the base board.) -/
def Board.pushPawnStep (b : Board) (move : Move) (epSquare : Option Nat)
    (pieceType0 : Nat) (capturedPieceType : Option Nat) : Board :=
  if pieceType0 = PAWN then
    let diff : Int := (move.toSquare : Int) - (move.fromSquare : Int)
    if diff = 16 ∧ squareRank move.fromSquare = 1 then
      { b with epSquare := some (move.fromSquare + 8) }
    else if diff = -16 ∧ squareRank move.fromSquare = 6 then
      { b with epSquare := some (move.fromSquare - 8) }
    else if epSquare = some move.toSquare ∧ (diff.natAbs = 7 ∨ diff.natAbs = 9) ∧
        capturedPieceType = none then
      let captureSquare2 := if b.turn then move.toSquare - 8 else move.toSquare + 8
      (b._removePieceAt captureSquare2).1
    else b
  else b

/-- The placement block of `push`: execute a castling move (king destination
occupied by an own rook) by removing king and rook and placing them on the
C/G and D/F files of the back rank, or place the (possibly promoted) piece
on the target square. -/
def Board.pushFinishPlacement (b : Board) (move : Move) (pieceType : Nat)
    (promotedFlag : Bool) : Board :=
  let toBb := BB_SQUARE move.toSquare
  let castling := pieceType = KING ∧ b.occupiedCo b.turn &&& toBb ≠ 0
  if castling then
    let aSide := squareFile move.toSquare < squareFile move.fromSquare
    let b := (b._removePieceAt move.fromSquare).1
    let b := (b._removePieceAt move.toSquare).1
    if aSide then
      let b := b._setPieceAt (if b.turn then 2 else 58) KING b.turn false
      b._setPieceAt (if b.turn then 3 else 59) ROOK b.turn false
    else
      let b := b._setPieceAt (if b.turn then 6 else 62) KING b.turn false
      b._setPieceAt (if b.turn then 5 else 61) ROOK b.turn false
  else
    b._setPieceAt move.toSquare pieceType b.turn promotedFlag

/-- `push(move)`, as the composition of the blocks above in source order.
The `ValueError` is the source's "push() expects move to be pseudo-legal"
throw when the from-square is empty. -/
def Board.push (b : Board) (move0 : Move) : Except Err Board :=
  let move := b._toChess960 move0
  let epSquare := b.epSquare
  let b1 := b.pushPrelude move
  if !move.bool then .ok { b1 with turn := !b1.turn }
  else match move.drop with
  | some d =>
    let b2 := b1._setPieceAt move.toSquare d b1.turn false
    .ok { b2 with turn := !b2.turn }
  | none =>
    let b2 := if b1.isZeroing move then { b1 with halfmoveClock := 0 } else b1
    let promotedFlag0 := b2.promoted &&& BB_SQUARE move.fromSquare ≠ 0
    match b2._removePieceAt move.fromSquare with
    | (_, none) => .error .valueError
    | (b3, some pieceType0) =>
      let capturedPieceType := b3.pieceTypeAt move.toSquare
      let b4 := b3.pushCastlingRightsUpdate move pieceType0 promotedFlag0 capturedPieceType
      let b5 := b4.pushPawnStep move epSquare pieceType0 capturedPieceType
      let pair :=
        match move.promotion with
        | some p => (true, p)
        | none => (promotedFlag0, pieceType0)
      let b6 := b5.pushFinishPlacement move pair.2 pair.1
      .ok { b6 with turn := !b6.turn }

/-- `pop()`: restore the snapshot on top of the state stack and return the
recorded move (`IndexError` on an empty stack). -/
def Board.pop (b : Board) : Except Err (Move × Board) :=
  match b.moveStack, b.stack with
  | move :: restMoves, st :: restStack =>
    .ok (move, st.restore { b with moveStack := restMoves, stack := restStack })
  | _, _ => .error .indexError

/-- `_algebraicWithoutSuffix(move, { long })`.  The leading
`if (!move) return '--';` of the source never fires: `move` is an object and
objects are always truthy in JS (the Python original relied on
`Move.__bool__`), so a null move flows into the generic path and, when its
from-square (A1) is empty, hits the "expect move to be legal or null"
`ValueError`. -/
def Board._algebraicWithoutSuffix (b : Board) (move : Move) (long : Bool) :
    Except Err String :=
  match move.drop with
  | some d =>
    .ok ((if d ≠ PAWN then String.mk [(pieceSymbolChar d).toUpper] else "") ++
      "@" ++ SQUARE_NAME move.toSquare)
  | none =>
    if b.isCastling move then
      .ok (if squareFile move.toSquare < squareFile move.fromSquare then "O-O-O" else "O-O")
    else
      match b.pieceTypeAt move.fromSquare with
      | none => .error .valueError
      | some pieceType =>
        let capture := b.isCapture move
        let san0 :=
          if pieceType = PAWN then "" else String.mk [(pieceSymbolChar pieceType).toUpper]
        let san1 :=
          if long then san0 ++ SQUARE_NAME move.fromSquare
          else if pieceType ≠ PAWN then
            let fromMask0 := andNot (b.piecesMask pieceType b.turn) (BB_SQUARE move.fromSquare)
            let toMask := BB_SQUARE move.toSquare
            let others :=
              (b.generateLegalMoves fromMask0 toMask).foldl
                (fun acc candidate => acc ||| BB_SQUARE candidate.fromSquare) 0
            if others ≠ 0 then
              let row := others &&& BB_FILE (squareFile move.fromSquare) ≠ 0
              let column := others &&& BB_RANK (squareRank move.fromSquare) ≠ 0 ∨ ¬row
              (if column then san0 ++ String.mk [FILE_NAMES.getD (squareFile move.fromSquare) ' ']
               else san0) ++
                (if row then String.mk [RANK_NAMES.getD (squareRank move.fromSquare) ' '] else "")
            else san0
          else if capture then san0 ++ String.mk [FILE_NAMES.getD (squareFile move.fromSquare) ' ']
          else san0
        let san2 := if capture then san1 ++ "x" else if long then san1 ++ "-" else san1
        let san3 := san2 ++ SQUARE_NAME move.toSquare
        let san4 :=
          match move.promotion with
          | some p => san3 ++ "=" ++ String.mk [(pieceSymbolChar p).toUpper]
          | none => san3
        .ok san4

/-- `_algebraicAndPush(move, { long })`: format, push, then append `#`/`+`
by looking at the resulting position (the suffix is gated on `move.bool()`). -/
def Board._algebraicAndPush (b : Board) (move : Move) (long : Bool) :
    Except Err (String × Board) := do
  let san ← b._algebraicWithoutSuffix move long
  let b2 ← b.push move
  let isCheck := b2.isCheck
  let isCheckmate := (isCheck && b2.isCheckmate) || b2.isVariantLoss || b2.isVariantWin
  if isCheckmate && move.bool then .ok (san ++ "#", b2)
  else if isCheck && move.bool then .ok (san ++ "+", b2)
  else .ok (san, b2)

/-- `_algebraic(move, { long })`: `_algebraicAndPush` then `pop()` (the pop
always succeeds because the push just grew the stack). -/
def Board._algebraic (b : Board) (move : Move) (long : Bool) : Except Err String := do
  let r ← b._algebraicAndPush move long
  .ok r.1

/-- `san(move)`. -/
def Board.san (b : Board) (move : Move) : Except Err String := b._algebraic move false

/-- The board produced by `new Board()` /
`reset()` on the standard starting FEN: `_resetBoard()` piece placement,
White to move, corner castling rights, cleared stacks. -/
def Board.startBoard : Board where
  pawns := BB_RANK 1 ||| BB_RANK 6
  knights := BB_SQUARE 1 ||| BB_SQUARE 6 ||| BB_SQUARE 57 ||| BB_SQUARE 62
  bishops := BB_SQUARE 2 ||| BB_SQUARE 5 ||| BB_SQUARE 58 ||| BB_SQUARE 61
  rooks := BB_CORNERS
  queens := BB_SQUARE 3 ||| BB_SQUARE 59
  kings := BB_SQUARE 4 ||| BB_SQUARE 60
  occupiedW := BB_RANK 0 ||| BB_RANK 1
  occupiedB := BB_RANK 6 ||| BB_RANK 7
  occupied := BB_RANK 0 ||| BB_RANK 1 ||| BB_RANK 6 ||| BB_RANK 7
  promoted := 0
  turn := WHITE
  castlingRights := BB_CORNERS
  epSquare := none
  halfmoveClock := 0
  fullmoveNumber := 1
  chess960 := false
  moveStack := []
  stack := []

/-- `_clearBoard()` (piece placement only). -/
def Board._clearBoard (b : Board) : Board :=
  { b with pawns := 0, knights := 0, bishops := 0, rooks := 0, queens := 0,
           kings := 0, promoted := 0, occupiedW := 0, occupiedB := 0, occupied := 0 }

/-- `clearStack()`. -/
def Board.clearStack (b : Board) : Board :=
  { b with moveStack := [], stack := [] }

/-- JS `String.prototype.split(sep)` for a one-character separator, on
character lists: the list of (possibly empty) segments. -/
def splitOnChar (sep : Char) (cs : List Char) : List (List Char) :=
  cs.foldr
    (fun c acc =>
      match acc with
      | cur :: rest => if c = sep then [] :: cur :: rest else (c :: cur) :: rest
      | [] => [[c]])
    [[]]

/-- A character of the JS whitespace class relevant to `trim` here. -/
def isJsSpace (c : Char) : Bool := c = ' ' ∨ c = '\t' ∨ c = '\n' ∨ c = '\r'

/-- JS `String.prototype.trim()` on character lists. -/
def trimChars (cs : List Char) : List Char :=
  ((cs.dropWhile isJsSpace).reverse.dropWhile isJsSpace).reverse

/-- `utils.parseIntStrict(str)`: validate against `^-?(0|[1-9]\d*)$` and
parse. -/
def parseIntStrict (s : String) : Except Err Int :=
  let core : List Char → Bool := fun cs =>
    match cs with
    | [] => false
    | ['0'] => true
    | c :: rest => '1' ≤ c ∧ c ≤ '9' ∧ rest.all (fun d => '0' ≤ d ∧ d ≤ '9')
  let cs := s.toList
  let valid :=
    match cs with
    | '-' :: rest => core rest
    | _ => core cs
  if valid then
    let digits := match cs with | '-' :: rest => rest | _ => cs
    let value : Int := digits.foldl (fun acc c => acc * 10 + ((c.toNat : Int) - 48)) 0
    .ok (if cs.headD ' ' = '-' then -value else value)
  else .error .valueError

/-- `FEN_CASTLING_REGEX = /^(?:-|[KQABCDEFGH]{0,2}[kqabcdefgh]{0,2})$/`:
either the single dash, or at most two upper-case flags followed by at most
two lower-case flags (greedy matching of the upper block is equivalent to
backtracking here, since moving an upper-case character into the lower block
can never help). -/
def fenCastlingValid (s : String) : Bool :=
  let upperSet : List Char := ['K', 'Q', 'A', 'B', 'C', 'D', 'E', 'F', 'G', 'H']
  let lowerSet : List Char := ['k', 'q', 'a', 'b', 'c', 'd', 'e', 'f', 'g', 'h']
  if s = "-" then true
  else
    let cs := s.toList
    let uppers := cs.takeWhile (fun c => upperSet.contains c)
    let rest := cs.dropWhile (fun c => upperSet.contains c)
    uppers.length ≤ 2 && rest.length ≤ 2 && rest.all (fun c => lowerSet.contains c)

/-- `Piece.fromSymbol(symbol)` restricted to what `_setBoardFen` needs: the
piece type index of the lower-cased letter, and white iff the letter equals
its upper-cased form. -/
def pieceFromSymbol (c : Char) : Nat × Bool :=
  ((pieceSymbolIndex c.toLower).getD 0, c = c.toUpper)

/-- The digit characters accepted inside a board FEN row. -/
def fenDigit (c : Char) : Bool :=
  ['1', '2', '3', '4', '5', '6', '7', '8'].contains c

/-- Whether `c.toLowerCase()` occurs in `PIECE_SYMBOLS`. -/
def fenPieceChar (c : Char) : Bool :=
  (pieceSymbolIndex c.toLower).isSome

/-- The per-row validation loop of `_setBoardFen`. -/
def boardFenRowValid (row : List Char) : Bool :=
  let step := row.foldl
    (fun state c =>
      match state with
      | none => none
      | some (fieldSum, previousWasDigit, previousWasPiece) =>
        if fenDigit c then
          if previousWasDigit then none
          else some (fieldSum + (c.toNat - 48), true, false)
        else if c = '~' then
          if ¬previousWasPiece then none else some (fieldSum, false, false)
        else if fenPieceChar c then some (fieldSum + 1, false, true)
        else none)
    (some (0, false, false))
  match step with
  | some (fieldSum, _, _) => fieldSum == 8
  | none => false

/-- The placement loop of `_setBoardFen`: walk the FEN characters over
`SQUARES_180[squareIndex]`, skipping by digits, placing pieces, and marking
`~` promotions on the previous square. -/
def Board.setBoardFenPieces (b : Board) (cs : List Char) : Board :=
  (cs.foldl
    (fun (state : Board × Nat) c =>
      let b := state.1
      let squareIndex := state.2
      if fenDigit c then (b, squareIndex + (c.toNat - 48))
      else if fenPieceChar c then
        let piece := pieceFromSymbol c
        (b._setPieceAt (squareMirror squareIndex) piece.1 piece.2 false, squareIndex + 1)
      else if c = '~' then
        ({ b with promoted := b.promoted ||| BB_SQUARE (squareMirror (squareIndex - 1)) },
         squareIndex)
      else (b, squareIndex))
    (b, 0)).1

/-- `_setBoardFen(fen)`. -/
def Board._setBoardFen (b : Board) (fen : String) : Except Err Board :=
  let cs := trimChars fen.toList
  if cs.contains ' ' then .error .valueError
  else
    let rows := splitOnChar '/' cs
    if rows.length ≠ 8 then .error .valueError
    else if ¬rows.all boardFenRowValid then .error .valueError
    else .ok ((b._clearBoard).setBoardFenPieces cs)

/-- `_setCastlingFen(castlingFen)`.  The `lsb`/`msb` of an empty rook set is
`-1` in the source; the signed `lsbI`/`msbI` reproduce the comparisons. -/
def Board._setCastlingFen (b : Board) (castlingFen : String) : Except Err Board :=
  if castlingFen = "" ∨ castlingFen = "-" then .ok { b with castlingRights := 0 }
  else if ¬fenCastlingValid castlingFen then .error .valueError
  else
    let b0 := { b with castlingRights := 0 }
    .ok (castlingFen.toList.foldl
      (fun b flag =>
        let color := flag = flag.toUpper
        let flagL := flag.toLower
        let backrank := if color then BB_RANK_1 else BB_RANK_8
        let rooks := b.occupiedCo color &&& b.rooks &&& backrank
        let king := b.king color
        if flagL = 'q' then
          if king.isSome ∧ lsbI rooks < (king.getD 0 : Int) then
            { b with castlingRights := b.castlingRights ||| lsbMask rooks }
          else { b with castlingRights := b.castlingRights ||| (BB_FILE 0 &&& backrank) }
        else if flagL = 'k' then
          let rookI := msbI rooks
          if king.isSome ∧ (king.getD 0 : Int) < rookI then
            { b with castlingRights := b.castlingRights ||| BB_SQUARE rookI.toNat }
          else { b with castlingRights := b.castlingRights ||| (BB_FILE 7 &&& backrank) }
        else
          { b with castlingRights :=
              b.castlingRights ||| (BB_FILE (FILE_NAMES.findIdx (· = flagL)) &&& backrank) })
      b0)

/-- `setFen(fen)`: split on single spaces, consume board part, turn,
castling part (validated), en-passant part (any square name is accepted),
half-move clock and full-move number (a `0` full-move number is normalised to
`1`), reject leftovers, then apply everything and clear the stacks. -/
def Board.setFen (b : Board) (fen : String) : Except Err Board := do
  let parts := (splitOnChar ' ' fen.toList).map String.mk
  match parts with
  | [] => .error .valueError
  | boardPart :: rest1 =>
    let turnStep : Except Err (Bool × List String) :=
      match rest1 with
      | [] => .ok (WHITE, [])
      | turnPart :: rest2 =>
        if turnPart = "w" then .ok (WHITE, rest2)
        else if turnPart = "b" then .ok (BLACK, rest2)
        else .error .valueError
    let (turn, rest2) ← turnStep
    let castlingStep : Except Err (String × List String) :=
      match rest2 with
      | [] => .ok ("-", [])
      | castlingPart :: rest3 =>
        if ¬fenCastlingValid castlingPart then .error .valueError
        else .ok (castlingPart, rest3)
    let (castlingPart, rest3) ← castlingStep
    let epStep : Except Err (Option Nat × List String) :=
      match rest3 with
      | [] => .ok (none, [])
      | epPart :: rest4 =>
        if epPart = "-" then .ok (none, rest4)
        else
          match squareNameIndex epPart with
          | some idx => .ok (some idx, rest4)
          | none => .error .valueError
    let (epSquare, rest4) ← epStep
    let halfmoveStep : Except Err (Int × List String) :=
      match rest4 with
      | [] => .ok (0, [])
      | halfmovePart :: rest5 => do
        let v ← parseIntStrict halfmovePart
        if v < 0 then .error .valueError else .ok (v, rest5)
    let (halfmoveClock, rest5) ← halfmoveStep
    let fullmoveStep : Except Err (Int × List String) :=
      match rest5 with
      | [] => .ok (1, [])
      | fullmovePart :: rest6 => do
        let v ← parseIntStrict fullmovePart
        if v < 0 then .error .valueError else .ok (max v 1, rest6)
    let (fullmoveNumber, rest6) ← fullmoveStep
    if rest6.length ≠ 0 then .error .valueError
    else do
      let b ← b._setBoardFen boardPart
      let b := { b with turn := turn }
      let b ← b._setCastlingFen castlingPart
      let b := { b with
        epSquare := epSquare,
        halfmoveClock := halfmoveClock.toNat,
        fullmoveNumber := fullmoveNumber.toNat }
      .ok b.clearStack

/-- `new Board(fen)` for a FEN other than the standard starting FEN: the
constructor clears the piece placement (`super(null)`), initialises the
Chess960 flag, the ep square and the stacks, and delegates everything else to
`setFen` (which assigns every remaining field). -/
def Board.fromFen (fen : String) : Except Err Board :=
  ({ pawns := 0, knights := 0, bishops := 0, rooks := 0, queens := 0, kings := 0,
     occupiedW := 0, occupiedB := 0, occupied := 0, promoted := 0,
     turn := WHITE, castlingRights := 0, epSquare := none,
     halfmoveClock := 0, fullmoveNumber := 1, chess960 := false,
     moveStack := [], stack := [] : Board }).setFen fen


/-- The data-model invariants of a well-formed `Board` position assumed by the
ordering and round-trip theorems: the occupancy fits in 64 bits and is the
disjoint union of the two color occupancies, knights/kings/rooks do not
overlap, no pawn stands on a back rank, every castling-rights square on a back
rank holds a rook of the color owning that rank, and the en-passant square is
a board square. -/
structure BoardInv (b : Board) : Prop where
  occ_lt : b.occupied < 2 ^ 64
  co_union : b.occupiedW ||| b.occupiedB = b.occupied
  co_disjoint : b.occupiedW &&& b.occupiedB = 0
  knights_kings : b.knights &&& b.kings = 0
  kings_rooks : b.kings &&& b.rooks = 0
  pawns_backrank : b.pawns &&& BB_BACKRANKS = 0
  cr_rank1 : andNot (b.castlingRights &&& BB_RANK_1) (b.rooks &&& b.occupiedW) = 0
  cr_rank8 : andNot (b.castlingRights &&& BB_RANK_8) (b.rooks &&& b.occupiedB) = 0
  ep_lt : b.epSquare.getD 0 < 64


/-- The emission pattern §8 of the spec promises for a pawn arriving at
`toSquare`: four promotion moves in the order queen, rook, bishop, knight on a
back rank, one plain move otherwise.  Written from the spec's words, to be
compared with the source's `pawnMoveEmissions`. -/
def specPromotionEmissions (fromSquare toSquare : Nat) : List Move :=
  if squareRank toSquare = 0 ∨ squareRank toSquare = 7 then
    [⟨fromSquare, toSquare, some QUEEN, none⟩,
     ⟨fromSquare, toSquare, some ROOK, none⟩,
     ⟨fromSquare, toSquare, some BISHOP, none⟩,
     ⟨fromSquare, toSquare, some KNIGHT, none⟩]
  else [⟨fromSquare, toSquare, none, none⟩]

/-!
## Theorems

The claim theorems (and their witnesses and counterexamples) follow, after
the supporting lemmas they share.
-/

set_option maxRecDepth 40000

/-- `_removePieceAt` changes only the piece-placement bitboards. -/
theorem Board._removePieceAt_preserves (b : Board) (s : Nat) :
    ((b._removePieceAt s).1).epSquare = b.epSquare ∧
    ((b._removePieceAt s).1).turn = b.turn ∧
    ((b._removePieceAt s).1).halfmoveClock = b.halfmoveClock ∧
    ((b._removePieceAt s).1).fullmoveNumber = b.fullmoveNumber ∧
    ((b._removePieceAt s).1).castlingRights = b.castlingRights ∧
    ((b._removePieceAt s).1).chess960 = b.chess960 ∧
    ((b._removePieceAt s).1).moveStack = b.moveStack ∧
    ((b._removePieceAt s).1).stack = b.stack := by
  simp only [Board._removePieceAt]
  repeat' split
  all_goals exact ⟨rfl, rfl, rfl, rfl, rfl, rfl, rfl, rfl⟩

/-- `_setPieceAt` changes only the piece-placement bitboards. -/
theorem Board._setPieceAt_preserves (b : Board) (s pt : Nat) (c pr : Bool) :
    (b._setPieceAt s pt c pr).epSquare = b.epSquare ∧
    (b._setPieceAt s pt c pr).turn = b.turn ∧
    (b._setPieceAt s pt c pr).halfmoveClock = b.halfmoveClock ∧
    (b._setPieceAt s pt c pr).fullmoveNumber = b.fullmoveNumber ∧
    (b._setPieceAt s pt c pr).castlingRights = b.castlingRights ∧
    (b._setPieceAt s pt c pr).chess960 = b.chess960 ∧
    (b._setPieceAt s pt c pr).moveStack = b.moveStack ∧
    (b._setPieceAt s pt c pr).stack = b.stack := by
  have h := b._removePieceAt_preserves s
  simp only [Board._setPieceAt]
  repeat' split
  all_goals simp_all

/-- `pushPrelude` clears the en-passant square, pushes the snapshot and the
de-normalised move, and leaves the stacks otherwise as stated. -/
theorem Board.pushPrelude_fields (b : Board) (m : Move) :
    (b.pushPrelude m).epSquare = none ∧
    (b.pushPrelude m).stack = BoardState.fromBoard b :: b.stack ∧
    (b.pushPrelude m).moveStack =
      (b._fromChess960 b.chess960 m.fromSquare m.toSquare m.promotion m.drop) ::
        b.moveStack ∧
    (b.pushPrelude m).chess960 = b.chess960 ∧
    (b.pushPrelude m).turn = b.turn := by
  simp only [Board.pushPrelude, Board.cleanCastlingRights]
  split
  all_goals exact ⟨rfl, rfl, rfl, rfl, rfl⟩

/-- The castling-rights block changes only `castlingRights`. -/
theorem Board.pushCastlingRightsUpdate_preserves (b : Board) (m : Move) (pt : Nat)
    (pr : Bool) (cap : Option Nat) :
    (b.pushCastlingRightsUpdate m pt pr cap).epSquare = b.epSquare ∧
    (b.pushCastlingRightsUpdate m pt pr cap).turn = b.turn ∧
    (b.pushCastlingRightsUpdate m pt pr cap).chess960 = b.chess960 ∧
    (b.pushCastlingRightsUpdate m pt pr cap).moveStack = b.moveStack ∧
    (b.pushCastlingRightsUpdate m pt pr cap).stack = b.stack ∧
    (b.pushCastlingRightsUpdate m pt pr cap).halfmoveClock = b.halfmoveClock := by
  simp only [Board.pushCastlingRightsUpdate]
  repeat' split
  all_goals exact ⟨rfl, rfl, rfl, rfl, rfl, rfl⟩

/-- The pawn block either leaves the en-passant square unchanged or sets it
one rank behind a double push, and never touches the stacks. -/
theorem Board.pushPawnStep_fields (b : Board) (m : Move) (ep : Option Nat)
    (pt : Nat) (cap : Option Nat) :
    ((b.pushPawnStep m ep pt cap).epSquare = b.epSquare ∨
      (squareRank m.fromSquare = 1 ∧
        (b.pushPawnStep m ep pt cap).epSquare = some (m.fromSquare + 8)) ∨
      (squareRank m.fromSquare = 6 ∧
        (b.pushPawnStep m ep pt cap).epSquare = some (m.fromSquare - 8))) ∧
    (b.pushPawnStep m ep pt cap).turn = b.turn ∧
    (b.pushPawnStep m ep pt cap).chess960 = b.chess960 ∧
    (b.pushPawnStep m ep pt cap).moveStack = b.moveStack ∧
    (b.pushPawnStep m ep pt cap).stack = b.stack ∧
    (b.pushPawnStep m ep pt cap).halfmoveClock = b.halfmoveClock := by
  simp only [Board.pushPawnStep]
  repeat' split
  all_goals try exact ⟨Or.inl rfl, rfl, rfl, rfl, rfl, rfl⟩
  all_goals try first
    | (rename_i h; exact ⟨Or.inr (Or.inl ⟨h.2, rfl⟩), rfl, rfl, rfl, rfl, rfl⟩)
    | (rename_i h; exact ⟨Or.inr (Or.inr ⟨h.2, rfl⟩), rfl, rfl, rfl, rfl, rfl⟩)
  all_goals first
    | (have h := Board._removePieceAt_preserves b (m.toSquare - 8)
       exact ⟨Or.inl h.1, h.2.1, h.2.2.2.2.2.1, h.2.2.2.2.2.2.1, h.2.2.2.2.2.2.2, h.2.2.1⟩)
    | (have h := Board._removePieceAt_preserves b (m.toSquare + 8)
       exact ⟨Or.inl h.1, h.2.1, h.2.2.2.2.2.1, h.2.2.2.2.2.2.1, h.2.2.2.2.2.2.2, h.2.2.1⟩)

/-- The placement block never touches the game-state scalars or stacks. -/
theorem Board.pushFinishPlacement_preserves (b : Board) (m : Move) (pt : Nat)
    (pr : Bool) :
    (b.pushFinishPlacement m pt pr).epSquare = b.epSquare ∧
    (b.pushFinishPlacement m pt pr).turn = b.turn ∧
    (b.pushFinishPlacement m pt pr).chess960 = b.chess960 ∧
    (b.pushFinishPlacement m pt pr).moveStack = b.moveStack ∧
    (b.pushFinishPlacement m pt pr).stack = b.stack ∧
    (b.pushFinishPlacement m pt pr).halfmoveClock = b.halfmoveClock := by
  simp only [Board.pushFinishPlacement]
  repeat' split
  all_goals
    simp only [Board._setPieceAt_preserves, Board._removePieceAt_preserves, and_self]

/-- Rank arithmetic for a white double push. -/
theorem squareRank_add8 {f : Nat} (h : squareRank f = 1) : squareRank (f + 8) = 2 := by
  simp only [squareRank, Nat.shiftRight_eq_div_pow] at *
  omega

/-- Rank arithmetic for a black double push. -/
theorem squareRank_sub8 {f : Nat} (h : squareRank f = 6) : squareRank (f - 8) = 5 := by
  simp only [squareRank, Nat.shiftRight_eq_div_pow] at *
  omega


theorem bitLengthAux_bounds : ∀ fuel n, n < 2 ^ fuel →
    n < 2 ^ (bitLengthAux fuel n) ∧ (n ≠ 0 → 2 ^ (bitLengthAux fuel n - 1) ≤ n) := by
  intro fuel
  induction fuel with
  | zero =>
    intro n hn
    interval_cases n
    exact ⟨Nat.zero_lt_one, fun h => absurd rfl h⟩
  | succ fuel ih =>
    intro n hn
    match n with
    | 0 => exact ⟨Nat.zero_lt_one, fun h => absurd rfl h⟩
    | (m + 1) =>
      have hdiv : (m + 1) >>> 1 < 2 ^ fuel := by
        rw [Nat.shiftRight_succ, Nat.shiftRight_zero]
        omega
      have ihh := ih ((m + 1) >>> 1) hdiv
      rw [show bitLengthAux (fuel + 1) (m + 1) = bitLengthAux fuel ((m + 1) >>> 1) + 1 from rfl]
      rw [Nat.shiftRight_succ, Nat.shiftRight_zero] at ihh ⊢
      constructor
      · have := ihh.1
        rw [Nat.pow_succ]
        omega
      · intro _
        rcases Nat.eq_zero_or_pos ((m + 1) / 2) with h0 | hpos
        · have : m = 0 := by omega
          subst this
          simp [h0] at *
          rw [show bitLengthAux fuel 0 = 0 from by cases fuel <;> rfl]
          simp
        · have hle := ihh.2 (by omega)
          have hL : 1 ≤ bitLengthAux fuel ((m + 1) / 2) := by
            by_contra hL
            have : bitLengthAux fuel ((m + 1) / 2) = 0 := by omega
            rw [this] at ihh
            have := ihh.1
            omega
          have : 2 ^ (bitLengthAux fuel ((m + 1) / 2)) ≤ 2 * ((m + 1) / 2) := by
            calc 2 ^ (bitLengthAux fuel ((m + 1) / 2))
                = 2 * 2 ^ (bitLengthAux fuel ((m + 1) / 2) - 1) := by
                  rw [← Nat.pow_succ']
                  congr 1
                  omega
              _ ≤ 2 * ((m + 1) / 2) := by omega
          simp only [Nat.add_sub_cancel]
          omega

theorem bitLength_bounds {n : Nat} (h : n < 2 ^ 128) :
    n < 2 ^ bitLength n ∧ (n ≠ 0 → 2 ^ (bitLength n - 1) ≤ n) :=
  bitLengthAux_bounds 128 n h

theorem testBit_bitLength_pred {n : Nat} (hn : n ≠ 0) (hlt : n < 2 ^ 128) :
    n.testBit (bitLength n - 1) = true := by
  have h := bitLength_bounds hlt
  have h1 : n < 2 ^ bitLength n := h.1
  have h2 : 2 ^ (bitLength n - 1) ≤ n := h.2 hn
  have hL : 1 ≤ bitLength n := by
    by_contra hL
    have h0 : bitLength n = 0 := by omega
    rw [h0] at h1
    omega
  have hdiv : n / 2 ^ (bitLength n - 1) = 1 := by
    apply Nat.div_eq_of_lt_le (by simpa using h2)
    have : (1 + 1) * 2 ^ (bitLength n - 1) = 2 ^ (bitLength n) := by
      rw [← Nat.pow_succ']
      congr 1
      omega
    omega
  rw [Nat.testBit_to_div_mod, hdiv]
  rfl

theorem testBit_lt_bitLength {n s : Nat} (hlt : n < 2 ^ 128) (h : n.testBit s = true) :
    s < bitLength n := by
  by_contra hs
  have hL : bitLength n ≤ s := by omega
  have h1 := (bitLengthAux_bounds 128 n hlt).1
  have : n < 2 ^ s := lt_of_lt_of_le h1 (Nat.pow_le_pow_right (by norm_num) hL)
  rw [Nat.testBit_lt_two_pow this] at h
  cases h

theorem bitLength_le_of_lt {n k : Nat} (hk : n < 2 ^ k) (h128 : n < 2 ^ 128) :
    bitLength n ≤ k := by
  rcases Nat.eq_zero_or_pos n with h0 | hpos
  · subst h0
    rw [show bitLength 0 = 0 from rfl]
    omega
  · by_contra hL
    have h2 := (bitLength_bounds h128).2 (by omega)
    have : 2 ^ k ≤ 2 ^ (bitLength n - 1) := Nat.pow_le_pow_right (by norm_num) (by omega)
    omega

theorem scanReversedAux_mem : ∀ fuel, fuel ≤ 128 → ∀ bb, bb < 2 ^ fuel →
    ∀ s, s ∈ scanReversedAux fuel bb ↔ bb.testBit s = true := by
  intro fuel
  induction fuel with
  | zero =>
    intro _ bb hbb s
    interval_cases bb
    simp [scanReversedAux]
  | succ fuel ih =>
    intro hf bb hbb s
    match bb with
    | 0 => simp [scanReversedAux]
    | (m + 1) =>
      have h128 : (m + 1 : Nat) < 2 ^ 128 :=
        lt_of_lt_of_le hbb (Nat.pow_le_pow_right (by norm_num) hf)
      set r := bitLength (m + 1) - 1 with hr
      have hstep : scanReversedAux (fuel + 1) (m + 1) =
          r :: scanReversedAux fuel ((m + 1) ^^^ (1 <<< r)) := rfl
      have htop : (m + 1 : Nat).testBit r = true := testBit_bitLength_pred (by omega) h128
      have hxor : ∀ i, ((m + 1) ^^^ (1 <<< r)).testBit i =
          if i = r then false else (m + 1 : Nat).testBit i := by
        intro i
        rw [Nat.testBit_xor, Nat.one_shiftLeft, Nat.testBit_two_pow]
        by_cases hir : i = r
        · subst hir
          simp [htop]
        · simp [hir, Ne.symm hir]
      have hbound : (m + 1) ^^^ (1 <<< r) < 2 ^ r := by
        apply Nat.lt_pow_two_of_testBit
        intro i hi
        rw [hxor i]
        by_cases hir : i = r
        · simp [hir]
        · have hgt : r < i := by omega
          rw [if_neg hir]
          apply Nat.testBit_lt_two_pow
          calc (m + 1 : Nat) < 2 ^ bitLength (m + 1) := (bitLength_bounds h128).1
            _ ≤ 2 ^ i := by
              apply Nat.pow_le_pow_right (by norm_num)
              have hL1 : 1 ≤ bitLength (m + 1) := by
                by_contra hL
                have h0 : bitLength (m + 1) = 0 := by omega
                have := (bitLength_bounds h128).1
                rw [h0] at this
                omega
              omega
      have hrfuel : r ≤ fuel - 1 ∨ r < fuel + 1 := by
        right
        have := bitLength_le_of_lt hbb h128
        omega
      have hfuelbound : (m + 1) ^^^ (1 <<< r) < 2 ^ fuel := by
        apply lt_of_lt_of_le hbound
        apply Nat.pow_le_pow_right (by norm_num)
        have := bitLength_le_of_lt hbb h128
        omega
      rw [hstep]
      simp only [List.mem_cons]
      rw [ih (by omega) _ hfuelbound s]
      rw [hxor s]
      by_cases hsr : s = r
      · subst hsr
        simp [htop]
      · simp [hsr]

theorem scanReversed_mem {bb : Nat} (hbb : bb < 2 ^ 64) (s : Nat) :
    s ∈ scanReversed bb ↔ bb.testBit s = true :=
  scanReversedAux_mem 64 (by norm_num) bb hbb s

theorem scanReversedAux_lt_bitLength : ∀ fuel, fuel ≤ 128 → ∀ bb, bb < 2 ^ fuel →
    ∀ s ∈ scanReversedAux fuel bb, s < bitLength bb := by
  intro fuel hf bb hbb s hs
  have h128 : bb < 2 ^ 128 := lt_of_lt_of_le hbb (Nat.pow_le_pow_right (by norm_num) hf)
  have ht := (scanReversedAux_mem fuel hf bb hbb s).mp hs
  exact testBit_lt_bitLength h128 ht

theorem scanReversedAux_pairwise : ∀ fuel, fuel ≤ 128 → ∀ bb, bb < 2 ^ fuel →
    List.Pairwise (fun a b => b < a) (scanReversedAux fuel bb) := by
  intro fuel
  induction fuel with
  | zero =>
    intro _ bb hbb
    interval_cases bb
    simp [scanReversedAux]
  | succ fuel ih =>
    intro hf bb hbb
    match bb with
    | 0 => simp [scanReversedAux]
    | (m + 1) =>
      have h128 : (m + 1 : Nat) < 2 ^ 128 :=
        lt_of_lt_of_le hbb (Nat.pow_le_pow_right (by norm_num) hf)
      set r := bitLength (m + 1) - 1 with hr
      have hstep : scanReversedAux (fuel + 1) (m + 1) =
          r :: scanReversedAux fuel ((m + 1) ^^^ (1 <<< r)) := rfl
      have htop : (m + 1 : Nat).testBit r = true := testBit_bitLength_pred (by omega) h128
      have hxor : ∀ i, ((m + 1) ^^^ (1 <<< r)).testBit i =
          if i = r then false else (m + 1 : Nat).testBit i := by
        intro i
        rw [Nat.testBit_xor, Nat.one_shiftLeft, Nat.testBit_two_pow]
        by_cases hir : i = r
        · subst hir; simp [htop]
        · simp [hir, Ne.symm hir]
      have hbound : (m + 1) ^^^ (1 <<< r) < 2 ^ r := by
        apply Nat.lt_pow_two_of_testBit
        intro i hi
        rw [hxor i]
        by_cases hir : i = r
        · simp [hir]
        · rw [if_neg hir]
          apply Nat.testBit_lt_two_pow
          calc (m + 1 : Nat) < 2 ^ bitLength (m + 1) := (bitLength_bounds h128).1
            _ ≤ 2 ^ i := by
              apply Nat.pow_le_pow_right (by norm_num)
              have hL1 : 1 ≤ bitLength (m + 1) := by
                by_contra hL
                have h0 : bitLength (m + 1) = 0 := by omega
                have h1 := (bitLength_bounds h128).1
                rw [h0] at h1
                omega
              omega
      have hfuelbound : (m + 1) ^^^ (1 <<< r) < 2 ^ fuel := by
        apply lt_of_lt_of_le hbound
        apply Nat.pow_le_pow_right (by norm_num)
        have := bitLength_le_of_lt hbb h128
        omega
      rw [hstep]
      constructor
      · intro s hs
        have h2 : (m + 1) ^^^ (1 <<< r) < 2 ^ 128 :=
          lt_of_lt_of_le hfuelbound (Nat.pow_le_pow_right (by norm_num) (by omega))
        have hsb := (scanReversedAux_mem fuel (by omega) _ hfuelbound s).mp hs
        have := testBit_lt_bitLength h2 hsb
        have hble := bitLength_le_of_lt hbound h2
        omega
      · exact ih (by omega) _ hfuelbound

theorem scanReversed_pairwise {bb : Nat} (hbb : bb < 2 ^ 64) :
    List.Pairwise (fun a b => b < a) (scanReversed bb) :=
  scanReversedAux_pairwise 64 (by norm_num) bb hbb

theorem scanReversed_nodup {bb : Nat} (hbb : bb < 2 ^ 64) : (scanReversed bb).Nodup :=
  (scanReversed_pairwise hbb).imp (fun h => Nat.ne_of_gt h)

theorem testBit_andNot (x y i : Nat) :
    (andNot x y).testBit i = ((x.testBit i) && !(y.testBit i)) := by
  simp only [andNot, Nat.testBit_xor, Nat.testBit_land]
  cases x.testBit i <;> cases y.testBit i <;> rfl

theorem testBit_BB_SQUARE (k i : Nat) : (BB_SQUARE k).testBit i = decide (k = i) := by
  simp only [BB_SQUARE, Nat.one_shiftLeft, Nat.testBit_two_pow]

theorem and_single_ne_zero {x : Nat} {k : Nat} :
    x &&& BB_SQUARE k ≠ 0 ↔ x.testBit k = true := by
  constructor
  · intro h
    rcases Nat.exists_most_significant_bit h with ⟨i, hi, _⟩
    have := hi
    rw [Nat.testBit_land, testBit_BB_SQUARE] at this
    have hk : k = i := by
      rcases Bool.and_eq_true _ _ |>.mp this with ⟨_, h2⟩
      exact of_decide_eq_true h2
    subst hk
    exact (Bool.and_eq_true _ _ |>.mp this).1
  · intro h h0
    have : (x &&& BB_SQUARE k).testBit k = true := by
      rw [Nat.testBit_land, testBit_BB_SQUARE, h]
      simp
    rw [h0] at this
    simp [Nat.zero_testBit] at this

theorem lt_two_pow_of_subset {x y n : Nat}
    (h : ∀ i, x.testBit i = true → y.testBit i = true) (hy : y < 2 ^ n) : x < 2 ^ n := by
  apply Nat.lt_pow_two_of_testBit
  intro i hi
  by_contra hx
  have hxi : x.testBit i = true := by
    cases hxe : x.testBit i
    · exact absurd hxe hx
    · rfl
  have := h i hxi
  rw [Nat.testBit_lt_two_pow (lt_of_lt_of_le hy (Nat.pow_le_pow_right (by norm_num) hi))] at this
  cases this

theorem testBit_and_left {x y i : Nat} (h : (x &&& y).testBit i = true) :
    x.testBit i = true := by
  rw [Nat.testBit_land] at h
  exact (Bool.and_eq_true _ _ |>.mp h).1

theorem testBit_and_right {x y i : Nat} (h : (x &&& y).testBit i = true) :
    y.testBit i = true := by
  rw [Nat.testBit_land] at h
  exact (Bool.and_eq_true _ _ |>.mp h).2

theorem testBit_andNot_left {x y i : Nat} (h : (andNot x y).testBit i = true) :
    x.testBit i = true := by
  rw [testBit_andNot] at h
  exact (Bool.and_eq_true _ _ |>.mp h).1

theorem testBit_andNot_not_right {x y i : Nat} (h : (andNot x y).testBit i = true) :
    y.testBit i = false := by
  rw [testBit_andNot] at h
  have := (Bool.and_eq_true _ _ |>.mp h).2
  cases hy : y.testBit i
  · rfl
  · rw [hy] at this; cases this

theorem and_lt_left {x y n : Nat} (hx : x < 2 ^ n) : x &&& y < 2 ^ n :=
  lt_two_pow_of_subset (fun _ h => testBit_and_left h) hx

theorem andNot_lt {x y n : Nat} (hx : x < 2 ^ n) : andNot x y < 2 ^ n :=
  lt_two_pow_of_subset (fun _ h => testBit_andNot_left h) hx

theorem slidingAttacksGo_lt (occ : Nat) (delta : Int) :
    ∀ fuel (sq : Int), slidingAttacksGo occ delta fuel sq < 2 ^ 64 := by
  intro fuel
  induction fuel with
  | zero => intro sq; simp [slidingAttacksGo]
  | succ fuel ih =>
    intro sq
    rw [slidingAttacksGo]
    dsimp only
    split
    · rename_i hcond
      have hbit : BB_SQUARE (sq + delta).toNat < 2 ^ 64 := by
        rw [BB_SQUARE, Nat.one_shiftLeft]
        apply Nat.pow_lt_pow_right (by norm_num)
        omega
      split
      · exact hbit
      · exact Nat.or_lt_two_pow hbit (ih (sq + delta))
    · exact Nat.pos_pow_of_pos 64 (by norm_num)

theorem slidingAttacks_lt (square occ : Nat) (deltas : List Int) :
    slidingAttacks square occ deltas < 2 ^ 64 := by
  rw [slidingAttacks]
  suffices h : ∀ (l : List Int) (acc : Nat), acc < 2 ^ 64 →
      l.foldl (fun attacks delta => attacks ||| slidingAttacksGo occ delta 64 square) acc < 2 ^ 64 by
    exact h deltas 0 (Nat.pos_pow_of_pos 64 (by norm_num))
  intro l
  induction l with
  | nil => intro acc hacc; exact hacc
  | cons d l ih =>
    intro acc hacc
    exact ih _ (Nat.or_lt_two_pow hacc (slidingAttacksGo_lt occ d 64 square))

theorem stepAttacks_lt (square : Nat) (deltas : List Int) : stepAttacks square deltas < 2 ^ 64 :=
  slidingAttacks_lt ..

theorem attacksMask_lt (b : Board) (square : Nat) : b.attacksMask square < 2 ^ 64 := by
  rw [Board.attacksMask]
  dsimp only
  repeat' split
  all_goals
    first
    | exact stepAttacks_lt ..
    | exact slidingAttacks_lt ..
    | exact Nat.or_lt_two_pow (Nat.or_lt_two_pow (slidingAttacks_lt ..) (slidingAttacks_lt ..)) (slidingAttacks_lt ..)
    | exact Nat.or_lt_two_pow (Nat.or_lt_two_pow (Nat.pos_pow_of_pos 64 (by norm_num)) (slidingAttacks_lt ..)) (slidingAttacks_lt ..)
    | exact Nat.pos_pow_of_pos 64 (by norm_num)

theorem testBit_ne_zero {x i : Nat} (h : x.testBit i = true) : x ≠ 0 := by
  intro h0
  rw [h0, Nat.zero_testBit] at h
  cases h

theorem testBit_lt {x n i : Nat} (hx : x < 2 ^ n) (h : x.testBit i = true) : i < n := by
  by_contra hge
  rw [Nat.testBit_lt_two_pow (lt_of_lt_of_le hx (Nat.pow_le_pow_right (by norm_num) (by omega)))] at h
  cases h

theorem disjoint_testBit {x y i : Nat} (hxy : x &&& y = 0) (h : x.testBit i = true) :
    y.testBit i = false := by
  cases hy : y.testBit i
  · rfl
  · exfalso
    have hz : (x &&& y).testBit i = true := by rw [Nat.testBit_land, h, hy]; rfl
    rw [hxy, Nat.zero_testBit] at hz
    cases hz

theorem subset_of_andNot_eq_zero {x y i : Nat} (hxy : andNot x y = 0)
    (h : x.testBit i = true) : y.testBit i = true := by
  cases hy : y.testBit i
  · exfalso
    have hz : (andNot x y).testBit i = true := by rw [testBit_andNot, h, hy]; rfl
    rw [hxy, Nat.zero_testBit] at hz
    cases hz
  · rfl

theorem and_eq_zero_of_testBit {x y : Nat} (h : ∀ i, x.testBit i = true → y.testBit i = false) :
    x &&& y = 0 := by
  apply Nat.eq_of_testBit_eq
  intro i
  rw [Nat.testBit_land, Nat.zero_testBit]
  cases hx : x.testBit i
  · rfl
  · rw [h i hx]; rfl

theorem lsbMask_eq_andNot (x : Nat) : lsbMask x = andNot x (x - 1) := rfl

theorem testBit_msb {x : Nat} (hx : x ≠ 0) (hlt : x < 2 ^ 128) : x.testBit (msb x) = true := by
  rw [msb]
  exact testBit_bitLength_pred hx hlt

theorem single_and_ne_zero {x k : Nat} : BB_SQUARE k &&& x ≠ 0 ↔ x.testBit k = true := by
  rw [Nat.land_comm]
  exact and_single_ne_zero

theorem single_and_eq_zero {x k : Nat} : BB_SQUARE k &&& x = 0 ↔ x.testBit k = false := by
  constructor
  · intro h
    cases hx : x.testBit k
    · rfl
    · exact absurd h (single_and_ne_zero.mpr hx)
  · intro h
    by_cases hne : BB_SQUARE k &&& x = 0
    · exact hne
    · rw [single_and_ne_zero.mp hne] at h
      cases h

theorem and_single_eq_zero {x k : Nat} : x &&& BB_SQUARE k = 0 ↔ x.testBit k = false := by
  rw [Nat.land_comm]
  exact single_and_eq_zero

theorem shiftLeft8_lt {x : Nat} (hx : x < 2 ^ 56) : x <<< 8 < 2 ^ 64 := by
  rw [Nat.shiftLeft_eq]
  calc x * 2 ^ 8 < 2 ^ 56 * 2 ^ 8 := by
        exact Nat.mul_lt_mul_of_lt_of_le hx (le_refl _) (by norm_num)
    _ = 2 ^ 64 := by norm_num

theorem shiftRight8_lt {x : Nat} (hx : x < 2 ^ 64) : x >>> 8 < 2 ^ 64 := by
  rw [Nat.shiftRight_eq_div_pow]
  exact lt_of_le_of_lt (Nat.div_le_self _ _) hx

theorem testBit_ff {k : Nat} : (0xff : Nat).testBit k = decide (k < 8) := by
  by_cases hk : k < 8
  · interval_cases k <;> decide
  · rw [Nat.testBit_lt_two_pow]
    · simp [hk]
    · calc (0xff : Nat) < 2 ^ 8 := by norm_num
        _ ≤ 2 ^ k := Nat.pow_le_pow_right (by norm_num) (by omega)

theorem squareRank_of_testBit_BB_RANK {r i : Nat} (h : (BB_RANK r).testBit i = true) :
    squareRank i = r := by
  rw [BB_RANK, Nat.testBit_shiftLeft, testBit_ff] at h
  rw [Bool.and_eq_true, decide_eq_true_eq, decide_eq_true_eq] at h
  rw [squareRank, Nat.shiftRight_eq_div_pow]
  omega

theorem lt_two_pow56_of_backrank {x : Nat} (hx : x < 2 ^ 64) (hb : x &&& BB_BACKRANKS = 0) :
    x < 2 ^ 56 := by
  apply Nat.lt_pow_two_of_testBit
  intro i hi
  by_cases h64 : i < 64
  · cases hxe : x.testBit i
    · rfl
    exfalso
    have hback : BB_BACKRANKS.testBit i = true := by
      rw [BB_BACKRANKS, Nat.testBit_lor, BB_RANK_8, BB_RANK, Nat.testBit_shiftLeft, testBit_ff]
      have h1 : (56 ≤ i) = True := by simp; omega
      have h2 : (i - 56 < 8) = True := by simp; omega
      simp [h1, h2]
    rw [disjoint_testBit hb hxe] at hback
    cases hback
  · rw [Nat.testBit_lt_two_pow]
    exact lt_of_lt_of_le hx (Nat.pow_le_pow_right (by norm_num) (by omega))
theorem king_attacks_file_dist : ∀ f t : Fin 64,
    (BB_KING_ATTACKS f.val).testBit t.val = true →
      natDist (squareFile f.val) (squareFile t.val) ≤ 1 := by decide

theorem pawn_attacks_facts : ∀ (c : Bool) (e t : Fin 64),
    (BB_PAWN_ATTACKS c e.val).testBit t.val = true →
      (natDist e.val t.val = 7 ∨ natDist e.val t.val = 9) ∧
      squareRank t.val = (if c then squareRank e.val + 1 else squareRank e.val - 1) := by decide

theorem occupiedCo_lt {b : Board} (hocc : b.occupied < 2 ^ 64)
    (hco : b.occupiedW ||| b.occupiedB = b.occupied) (c : Bool) :
    b.occupiedCo c < 2 ^ 64 := by
  rw [Board.occupiedCo]
  split
  · exact lt_two_pow_of_subset (fun i hi => by rw [← hco, Nat.testBit_lor, hi]; rfl) hocc
  · exact lt_two_pow_of_subset
      (fun i hi => by rw [← hco, Nat.testBit_lor, hi, Bool.or_true]) hocc

theorem testBit_occupiedCo {b : Board} (hco : b.occupiedW ||| b.occupiedB = b.occupied)
    {c : Bool} {i : Nat} (h : (b.occupiedCo c).testBit i = true) :
    b.occupied.testBit i = true := by
  rw [Board.occupiedCo] at h
  rw [← hco, Nat.testBit_lor]
  split at h
  · rw [h]; rfl
  · rw [h, Bool.or_true]

theorem mem_pawnMoveEmissions {m : Move} {f t : Nat} (h : m ∈ pawnMoveEmissions f t) :
    m.fromSquare = f ∧ m.toSquare = t ∧ m.drop = none := by
  rw [pawnMoveEmissions] at h
  split at h <;> fin_cases h <;> exact ⟨rfl, rfl, rfl⟩

theorem mem_pseudoLegalPieceMoves {b : Board} {F T : Nat} {m : Move}
    (hocc : b.occupied < 2 ^ 64) (hco : b.occupiedW ||| b.occupiedB = b.occupied)
    (h : m ∈ b.pseudoLegalPieceMoves F T) :
    ∃ f t, m = ⟨f, t, none, none⟩ ∧
      (andNot (b.occupiedCo b.turn) b.pawns &&& F).testBit f = true ∧
      (andNot (b.attacksMask f) (b.occupiedCo b.turn) &&& T).testBit t = true := by
  simp only [Board.pseudoLegalPieceMoves] at h
  rw [List.mem_flatMap] at h
  obtain ⟨f, hf, hm⟩ := h
  rw [List.mem_map] at hm
  obtain ⟨t, ht, rfl⟩ := hm
  refine ⟨f, t, rfl, ?_, ?_⟩
  · exact (scanReversed_mem (and_lt_left (andNot_lt (occupiedCo_lt hocc hco b.turn))) f).mp hf
  · exact (scanReversed_mem (and_lt_left (andNot_lt (attacksMask_lt b f))) t).mp ht

theorem mem_generateCastlingMoves {b : Board} {F T : Nat} {m : Move}
    (hocc : b.occupied < 2 ^ 64) (hco : b.occupiedW ||| b.occupiedB = b.occupied)
    (hcr1 : andNot (b.castlingRights &&& BB_RANK_1) (b.rooks &&& b.occupiedW) = 0)
    (hcr8 : andNot (b.castlingRights &&& BB_RANK_8) (b.rooks &&& b.occupiedB) = 0)
    (h : m ∈ b.generateCastlingMoves F T) :
    ∃ k cand, m = b._fromChess960 b.chess960 k cand none none ∧
      b.kings.testBit k = true ∧ (b.occupiedCo b.turn).testBit k = true ∧
      (b.rooks &&& b.occupiedCo b.turn).testBit cand = true := by
  simp only [Board.generateCastlingMoves, Board.isVariantEnd, Board.cleanCastlingRights,
    if_false] at h
  set backrank := if b.turn = true then BB_RANK_1 else BB_RANK_8 with hbr
  set king0 := andNot (b.occupiedCo b.turn &&& b.kings) b.promoted &&& backrank &&& F
    with hk0
  split at h
  · exact absurd h (List.not_mem_nil m)
  split at h
  · exact absurd h (List.not_mem_nil m)
  rename_i hking
  rw [List.mem_filterMap] at h
  obtain ⟨cand, hcand, hsome⟩ := h
  have hk0lt : king0 < 2 ^ 64 :=
    and_lt_left (and_lt_left (andNot_lt (and_lt_left (occupiedCo_lt hocc hco b.turn))))
  have hklt : lsbMask king0 < 2 ^ 64 := by
    rw [lsbMask_eq_andNot]; exact andNot_lt hk0lt
  have hkbit : (lsbMask king0).testBit (msb (lsbMask king0)) = true :=
    testBit_msb hking (lt_trans hklt (by norm_num))
  have hkbit0 : king0.testBit (msb (lsbMask king0)) = true := by
    rw [lsbMask_eq_andNot] at hkbit
    exact testBit_andNot_left hkbit
  have hkours : (b.occupiedCo b.turn &&& b.kings).testBit (msb (lsbMask king0)) = true :=
    testBit_andNot_left (testBit_and_left (testBit_and_left hkbit0))
  have hcsub : ∀ i, (b.castlingRights &&& backrank &&& T).testBit i = true →
      (b.rooks &&& b.occupiedCo b.turn).testBit i = true := by
    intro i hi
    have hi' := testBit_and_left hi
    rw [hbr] at hi'
    by_cases hturn : b.turn = true
    · rw [if_pos hturn] at hi'
      have hrw := subset_of_andNot_eq_zero hcr1 hi'
      simp only [Board.occupiedCo, if_pos hturn]
      exact hrw
    · rw [if_neg hturn] at hi'
      have hrw := subset_of_andNot_eq_zero hcr8 hi'
      simp only [Board.occupiedCo, if_neg hturn]
      exact hrw
  have hclt : b.castlingRights &&& backrank &&& T < 2 ^ 64 :=
    lt_two_pow_of_subset
      (fun i hi => testBit_occupiedCo hco (testBit_and_right (hcsub i hi))) hocc
  have hcbit := (scanReversed_mem hclt cand).mp hcand
  split at hsome <;> split at hsome <;>
    first
      | exact Option.noConfusion hsome
      | (rw [Option.some_inj] at hsome
         subst hsome
         exact ⟨msb (lsbMask king0), cand, rfl, testBit_and_right hkours,
           testBit_and_left hkours, hcsub cand hcbit⟩)

theorem mem_pseudoLegalPawnCaptures {b : Board} {pawns0 T : Nat} {m : Move}
    (hp : pawns0 < 2 ^ 64)
    (h : m ∈ b.pseudoLegalPawnCaptures pawns0 T) :
    ∃ f t, pawns0.testBit f = true ∧
      (BB_PAWN_ATTACKS b.turn f &&& b.occupiedCo (!b.turn) &&& T).testBit t = true ∧
      m ∈ pawnMoveEmissions f t := by
  simp only [Board.pseudoLegalPawnCaptures] at h
  rw [List.mem_flatMap] at h
  obtain ⟨f, hf, hm⟩ := h
  rw [List.mem_flatMap] at hm
  obtain ⟨t, ht, hmem⟩ := hm
  refine ⟨f, t, (scanReversed_mem hp f).mp hf, ?_, hmem⟩
  exact (scanReversed_mem
    (and_lt_left (and_lt_left (stepAttacks_lt f _))) t).mp ht

theorem mem_pseudoLegalSinglePushes {b : Board} {S : Nat} {m : Move}
    (hS : S < 2 ^ 64) (h : m ∈ b.pseudoLegalSinglePushes S) :
    ∃ t, S.testBit t = true ∧
      m ∈ pawnMoveEmissions (if b.turn then t - 8 else t + 8) t := by
  simp only [Board.pseudoLegalSinglePushes] at h
  rw [List.mem_flatMap] at h
  obtain ⟨t, ht, hmem⟩ := h
  exact ⟨t, (scanReversed_mem hS t).mp ht, hmem⟩

theorem mem_pseudoLegalDoublePushes {b : Board} {D : Nat} {m : Move}
    (hD : D < 2 ^ 64) (h : m ∈ b.pseudoLegalDoublePushes D) :
    ∃ t, D.testBit t = true ∧
      m = ⟨if b.turn then t - 16 else t + 16, t, none, none⟩ := by
  simp only [Board.pseudoLegalDoublePushes] at h
  rw [List.mem_map] at h
  obtain ⟨t, ht, rfl⟩ := h
  exact ⟨t, (scanReversed_mem hD t).mp ht, rfl⟩

theorem mem_generatePseudoLegalEp {b : Board} {F T : Nat} {m : Move}
    (hocc : b.occupied < 2 ^ 64) (hco : b.occupiedW ||| b.occupiedB = b.occupied)
    (h : m ∈ b.generatePseudoLegalEp F T) :
    ∃ ep c, b.epSquare = some ep ∧ ep ≠ 0 ∧ BB_SQUARE ep &&& b.occupied = 0 ∧
      m = ⟨c, ep, none, none⟩ ∧
      (b.pawns &&& b.occupiedCo b.turn).testBit c = true ∧
      (BB_PAWN_ATTACKS (!b.turn) ep).testBit c = true ∧
      (BB_RANK (if b.turn then 4 else 3)).testBit c = true := by
  rw [Board.generatePseudoLegalEp] at h
  split at h
  · exact absurd h (List.not_mem_nil m)
  rename_i ep hep
  split at h
  · exact absurd h (List.not_mem_nil m)
  rename_i hep0
  split at h
  · exact absurd h (List.not_mem_nil m)
  rename_i hepT
  split at h
  · exact absurd h (List.not_mem_nil m)
  rename_i hepOcc
  simp only at h
  rw [List.mem_map] at h
  obtain ⟨c, hc, rfl⟩ := h
  have hsub : ∀ i,
      (b.pawns &&& b.occupiedCo b.turn &&& F &&&
        BB_PAWN_ATTACKS (!b.turn) ep &&& BB_RANK (if b.turn then 4 else 3)).testBit i = true →
      (b.pawns &&& b.occupiedCo b.turn).testBit i = true := by
    intro i hi
    exact testBit_and_left (testBit_and_left (testBit_and_left hi))
  have hlt : b.pawns &&& b.occupiedCo b.turn &&& F &&&
      BB_PAWN_ATTACKS (!b.turn) ep &&& BB_RANK (if b.turn then 4 else 3) < 2 ^ 64 :=
    lt_two_pow_of_subset
      (fun i hi => testBit_occupiedCo hco (testBit_and_right (hsub i hi))) hocc
  have hcbit := (scanReversed_mem hlt c).mp hc
  refine ⟨ep, c, hep, hep0, ?_, rfl, hsub c hcbit, ?_, testBit_and_right hcbit⟩
  · by_cases hz : BB_SQUARE ep &&& b.occupied = 0
    · exact hz
    · exact absurd hz hepOcc
  · exact testBit_and_right (testBit_and_left hcbit)

theorem and_testBit_false_right {x y i : Nat} (h : y.testBit i = false) :
    (x &&& y).testBit i = false := by
  rw [Nat.testBit_land, h, Bool.and_false]

theorem and_testBit_false_left {x y i : Nat} (h : x.testBit i = false) :
    (x &&& y).testBit i = false := by
  rw [Nat.testBit_land, h, Bool.false_and]

theorem occupiedCo_disjoint {b : Board} (hd : b.occupiedW &&& b.occupiedB = 0)
    {c : Bool} {i : Nat} (h : (b.occupiedCo c).testBit i = true) :
    (b.occupiedCo (!c)).testBit i = false := by
  cases c
  · rw [Board.occupiedCo] at h ⊢
    simp only [Bool.not_false, if_true, if_false] at *
    have hd' : b.occupiedB &&& b.occupiedW = 0 := by rw [Nat.land_comm]; exact hd
    exact disjoint_testBit hd' h
  · rw [Board.occupiedCo] at h ⊢
    simp only [Bool.not_true, if_true, if_false] at *
    exact disjoint_testBit hd h

theorem occupiedCo_not_occupied {b : Board} (hco : b.occupiedW ||| b.occupiedB = b.occupied)
    {c : Bool} {i : Nat} (h : b.occupied.testBit i = false) :
    (b.occupiedCo c).testBit i = false := by
  cases hx : (b.occupiedCo c).testBit i
  · rfl
  · rw [testBit_occupiedCo hco hx] at h
    cases h

theorem testBit_touched_to {f t : Nat} (h : f ≠ t) :
    (BB_SQUARE f ^^^ BB_SQUARE t).testBit t = true := by
  rw [Nat.testBit_xor, testBit_BB_SQUARE, testBit_BB_SQUARE]
  simp [h]

theorem testBit_touched_elim {f t i : Nat}
    (h : (BB_SQUARE f ^^^ BB_SQUARE t).testBit i = true) : i = f ∨ i = t := by
  rw [Nat.testBit_xor, testBit_BB_SQUARE, testBit_BB_SQUARE] at h
  by_cases hf : f = i
  · exact Or.inl hf.symm
  · by_cases ht : t = i
    · exact Or.inr ht.symm
    · simp [hf, ht] at h

theorem Move.bool_of_ne {m : Move} (h : m.fromSquare ≠ m.toSquare) : m.bool = true := by
  rw [Move.bool]
  by_cases hf : m.fromSquare = 0
  · have ht : m.toSquare ≠ 0 := by omega
    simp [bne_iff_ne, ht]
  · simp [bne_iff_ne, hf]

theorem pieceMove_facts {b : Board} {F T : Nat} {m : Move}
    (hocc : b.occupied < 2 ^ 64) (hco : b.occupiedW ||| b.occupiedB = b.occupied)
    (hkn : b.knights &&& b.kings = 0)
    (h : m ∈ b.pseudoLegalPieceMoves F T) :
    b.pawns.testBit m.fromSquare = false ∧ b.isCastling m = false ∧
    m.drop = none ∧ m.promotion = none ∧
    b.occupied.testBit m.fromSquare = true ∧ m.bool = true := by
  obtain ⟨f, t, rfl, hf, ht⟩ := mem_pseudoLegalPieceMoves hocc hco h
  have hfour : (b.occupiedCo b.turn).testBit f = true :=
    testBit_andNot_left (testBit_and_left hf)
  have hfp : b.pawns.testBit f = false :=
    testBit_andNot_not_right (testBit_and_left hf)
  have htNotOur : (b.occupiedCo b.turn).testBit t = false :=
    testBit_andNot_not_right (testBit_and_left ht)
  have hoccf : b.occupied.testBit f = true := testBit_occupiedCo hco hfour
  have hne : f ≠ t := by
    intro he
    rw [he, htNotOur] at hfour
    cases hfour
  refine ⟨hfp, ?_, rfl, rfl, hoccf, Move.bool_of_ne hne⟩
  show b.isCastling ⟨f, t, none, none⟩ = false
  by_cases hk : b.kings.testBit f = true
  · have hkn' : b.kings &&& b.knights = 0 := by rw [Nat.land_comm]; exact hkn
    have hknf : b.knights.testBit f = false := disjoint_testBit hkn' hk
    have ham : b.attacksMask f = BB_KING_ATTACKS f := by
      rw [Board.attacksMask]
      dsimp only
      rw [if_neg (fun hne' => hne' (single_and_eq_zero.mpr hfp)),
        if_neg (fun hne' => hne' (single_and_eq_zero.mpr hknf)),
        if_pos (single_and_ne_zero.mpr hk)]
    have htk : (BB_KING_ATTACKS f).testBit t = true := by
      rw [← ham]
      exact testBit_andNot_left (testBit_and_left ht)
    have hf64 : f < 64 := testBit_lt hocc hoccf
    have ht64 : t < 64 := testBit_lt (stepAttacks_lt f _) htk
    have hdist : natDist (squareFile f) (squareFile t) ≤ 1 :=
      king_attacks_file_dist ⟨f, hf64⟩ ⟨t, ht64⟩ htk
    rw [Board.isCastling]
    dsimp only
    rw [if_pos (and_single_ne_zero.mpr hk)]
    have h1 : decide (natDist (squareFile f) (squareFile t) > 1) = false :=
      decide_eq_false (by omega)
    have h2 : (b.rooks &&& b.occupiedCo b.turn &&& BB_SQUARE t != 0) = false := by
      rw [bne_eq_false_iff_eq]
      exact and_single_eq_zero.mpr (and_testBit_false_right htNotOur)
    rw [h1, h2, Bool.or_false]
  · rw [Board.isCastling]
    dsimp only
    rw [if_neg]
    intro hne'
    exact hk (and_single_ne_zero.mp hne')

theorem fromChess960_castle_facts {b : Board} {k cand : Nat} (c : Bool)
    (hk : b.kings.testBit k = true) (hkour : (b.occupiedCo b.turn).testBit k = true)
    (hcand : (b.rooks &&& b.occupiedCo b.turn).testBit cand = true)
    (hkr : b.kings &&& b.rooks = 0)
    (hco : b.occupiedW ||| b.occupiedB = b.occupied) :
    b.isCastling (b._fromChess960 c k cand none none) = true ∧
    (b._fromChess960 c k cand none none).drop = none ∧
    (b._fromChess960 c k cand none none).bool = true ∧
    b.occupied.testBit (b._fromChess960 c k cand none none).fromSquare = true := by
  have hocck : b.occupied.testBit k = true := testBit_occupiedCo hco hkour
  have hkcand : k ≠ cand := by
    intro he
    have hr : b.rooks.testBit k = false := disjoint_testBit hkr hk
    rw [← he] at hcand
    rw [testBit_and_left hcand] at hr
    cases hr
  have hpass : b.isCastling ⟨k, cand, none, none⟩ = true := by
    rw [Board.isCastling]
    dsimp only
    rw [if_pos (and_single_ne_zero.mpr hk)]
    have h2 : (b.rooks &&& b.occupiedCo b.turn &&& BB_SQUARE cand != 0) = true :=
      bne_iff_ne.mpr (and_single_ne_zero.mpr hcand)
    rw [h2, Bool.or_true]
  rw [Board._fromChess960]
  split
  case isFalse => exact ⟨hpass, rfl, Move.bool_of_ne hkcand, hocck⟩
  case isTrue hc1 =>
  split
  case isTrue hc2 =>
    obtain ⟨hk4, hbb4⟩ := hc2
    subst hk4
    split
    case isTrue hc3 =>
      refine ⟨?_, rfl, by decide, hocck⟩
      rw [Board.isCastling]
      dsimp only
      rw [if_pos hbb4]
      rw [show decide (natDist (squareFile 4) (squareFile 6) > 1) = true from rfl]
      exact Bool.true_or _
    case isFalse hc3 =>
    split
    case isTrue hc4 =>
      refine ⟨?_, rfl, by decide, hocck⟩
      rw [Board.isCastling]
      dsimp only
      rw [if_pos hbb4]
      rw [show decide (natDist (squareFile 4) (squareFile 2) > 1) = true from rfl]
      exact Bool.true_or _
    case isFalse hc4 => exact ⟨hpass, rfl, Move.bool_of_ne hkcand, hocck⟩
  case isFalse hc2 =>
  split
  case isTrue hc2b =>
    obtain ⟨hk60, hbb60⟩ := hc2b
    subst hk60
    split
    case isTrue hc3 =>
      refine ⟨?_, rfl, by decide, hocck⟩
      rw [Board.isCastling]
      dsimp only
      rw [if_pos hbb60]
      rw [show decide (natDist (squareFile 60) (squareFile 62) > 1) = true from rfl]
      exact Bool.true_or _
    case isFalse hc3 =>
    split
    case isTrue hc4 =>
      refine ⟨?_, rfl, by decide, hocck⟩
      rw [Board.isCastling]
      dsimp only
      rw [if_pos hbb60]
      rw [show decide (natDist (squareFile 60) (squareFile 58) > 1) = true from rfl]
      exact Bool.true_or _
    case isFalse hc4 => exact ⟨hpass, rfl, Move.bool_of_ne hkcand, hocck⟩
  case isFalse hc2b => exact ⟨hpass, rfl, Move.bool_of_ne hkcand, hocck⟩

theorem isEnPassant_false_of_dist {b : Board} {m : Move} (h7 : natDist m.toSquare m.fromSquare ≠ 7)
    (h9 : natDist m.toSquare m.fromSquare ≠ 9) : b.isEnPassant m = false := by
  rw [Board.isEnPassant]
  rw [show (natDist m.toSquare m.fromSquare == 7) = false from beq_eq_false_iff_ne.mpr h7,
    show (natDist m.toSquare m.fromSquare == 9) = false from beq_eq_false_iff_ne.mpr h9]
  simp

theorem isCapture_false_of {b : Board} {m : Move}
    (htouch : (BB_SQUARE m.fromSquare ^^^ BB_SQUARE m.toSquare) &&& b.occupiedCo (!b.turn) = 0)
    (hep : b.isEnPassant m = false) : b.isCapture m = false := by
  simp only [Board.isCapture]
  rw [htouch, hep]
  rfl

theorem pawnCapture_facts {b : Board} {F T : Nat} {m : Move}
    (hocc : b.occupied < 2 ^ 64) (hco : b.occupiedW ||| b.occupiedB = b.occupied)
    (hdisj : b.occupiedW &&& b.occupiedB = 0)
    (h : m ∈ b.pseudoLegalPawnCaptures (b.pawns &&& b.occupiedCo b.turn &&& F) T) :
    b.pawns.testBit m.fromSquare = true ∧ m.drop = none ∧ m.bool = true ∧
    b.occupied.testBit m.fromSquare = true ∧
    b.isCapture m = true ∧ b.isEnPassant m = false := by
  have hPlt : b.pawns &&& b.occupiedCo b.turn &&& F < 2 ^ 64 :=
    lt_two_pow_of_subset
      (fun i hi => testBit_occupiedCo hco (testBit_and_right (testBit_and_left hi))) hocc
  obtain ⟨f, t, hf, ht, hmem⟩ := mem_pseudoLegalPawnCaptures hPlt h
  obtain ⟨hmf, hmt, hmd⟩ := mem_pawnMoveEmissions hmem
  have hfp : b.pawns.testBit f = true := testBit_and_left (testBit_and_left hf)
  have hfour : (b.occupiedCo b.turn).testBit f = true :=
    testBit_and_right (testBit_and_left hf)
  have htheir : (b.occupiedCo (!b.turn)).testBit t = true :=
    testBit_and_right (testBit_and_left ht)
  have hoccf : b.occupied.testBit f = true := testBit_occupiedCo hco hfour
  have hocct : b.occupied.testBit t = true := testBit_occupiedCo hco htheir
  have hne : f ≠ t := by
    intro he
    subst he
    rw [occupiedCo_disjoint hdisj hfour] at htheir
    cases htheir
  have hepf : b.isEnPassant m = false := by
    rw [Board.isEnPassant]
    rw [show ((b.occupied &&& BB_SQUARE m.toSquare) == 0) = false from by
      rw [beq_eq_false_iff_ne]
      rw [hmt]
      exact and_single_ne_zero.mpr hocct]
    simp
  refine ⟨hmf ▸ hfp, hmd, Move.bool_of_ne (by rw [hmf, hmt]; exact hne),
    hmf ▸ hoccf, ?_, hepf⟩
  · simp only [Board.isCapture]
    have htt : ((BB_SQUARE m.fromSquare ^^^ BB_SQUARE m.toSquare) &&&
        b.occupiedCo (!b.turn)).testBit t = true := by
      rw [Nat.testBit_land, hmf, hmt, testBit_touched_to hne, htheir]
      rfl
    rw [bne_iff_ne.mpr (testBit_ne_zero htt), Bool.true_or]

theorem singlePush_facts {b : Board} {P T : Nat} {m : Move}
    (hocc : b.occupied < 2 ^ 64) (hco : b.occupiedW ||| b.occupiedB = b.occupied)
    (hdisj : b.occupiedW &&& b.occupiedB = 0)
    (hPsub : ∀ i, P.testBit i = true → (b.pawns &&& b.occupiedCo b.turn).testBit i = true)
    (hP56 : P < 2 ^ 56)
    (h : m ∈ b.pseudoLegalSinglePushes
      ((if b.turn = true then andNot (P <<< 8) b.occupied
        else andNot (P >>> 8) b.occupied) &&& T)) :
    b.pawns.testBit m.fromSquare = true ∧ m.drop = none ∧ m.bool = true ∧
    b.occupied.testBit m.fromSquare = true ∧ b.isCapture m = false := by
  have hP64 : P < 2 ^ 64 := lt_trans hP56 (by norm_num)
  have hS : (if b.turn = true then andNot (P <<< 8) b.occupied
      else andNot (P >>> 8) b.occupied) &&& T < 2 ^ 64 := by
    split
    · exact and_lt_left (andNot_lt (shiftLeft8_lt hP56))
    · exact and_lt_left (andNot_lt (shiftRight8_lt hP64))
  obtain ⟨t, htS, hmem⟩ := mem_pseudoLegalSinglePushes hS h
  have htS' := testBit_and_left htS
  -- split on the side to move
  by_cases hturn : b.turn = true
  · rw [if_pos hturn] at htS'
    rw [if_pos hturn] at hmem
    obtain ⟨hmf, hmt, hmd⟩ := mem_pawnMoveEmissions hmem
    have hsh := testBit_andNot_left htS'
    have hno : b.occupied.testBit t = false := testBit_andNot_not_right htS'
    rw [Nat.testBit_shiftLeft] at hsh
    obtain ⟨h8, hPt⟩ := Bool.and_eq_true _ _ |>.mp hsh
    have h8' : 8 ≤ t := of_decide_eq_true h8
    have hfrom := hPsub _ hPt
    have hfp : b.pawns.testBit (t - 8) = true := testBit_and_left hfrom
    have hfour : (b.occupiedCo b.turn).testBit (t - 8) = true := testBit_and_right hfrom
    have hoccf : b.occupied.testBit (t - 8) = true := testBit_occupiedCo hco hfour
    have hne : t - 8 ≠ t := by omega
    have hdist : natDist m.toSquare m.fromSquare = 8 := by
      rw [hmt, hmf, natDist, Nat.max_eq_left (by omega), Nat.min_eq_right (by omega)]
      omega
    refine ⟨hmf ▸ hfp, hmd, Move.bool_of_ne (by rw [hmf, hmt]; exact hne),
      hmf ▸ hoccf, ?_⟩
    · refine isCapture_false_of ?_ (isEnPassant_false_of_dist (by omega) (by omega))
      apply and_eq_zero_of_testBit
      intro i hi
      rcases testBit_touched_elim hi with rfl | rfl
      · exact hmf ▸ occupiedCo_disjoint hdisj hfour
      · exact hmt ▸ occupiedCo_not_occupied hco hno
  · rw [if_neg hturn] at htS'
    rw [if_neg hturn] at hmem
    obtain ⟨hmf, hmt, hmd⟩ := mem_pawnMoveEmissions hmem
    have hsh := testBit_andNot_left htS'
    have hno : b.occupied.testBit t = false := testBit_andNot_not_right htS'
    rw [Nat.testBit_shiftRight] at hsh
    have hfrom := hPsub _ hsh
    have hfrom' : (b.pawns &&& b.occupiedCo b.turn).testBit (t + 8) = true := by
      rw [show t + 8 = 8 + t from by omega]
      exact hfrom
    have hfp : b.pawns.testBit (t + 8) = true := testBit_and_left hfrom'
    have hfour : (b.occupiedCo b.turn).testBit (t + 8) = true := testBit_and_right hfrom'
    have hoccf : b.occupied.testBit (t + 8) = true := testBit_occupiedCo hco hfour
    have hne : t + 8 ≠ t := by omega
    have hdist : natDist m.toSquare m.fromSquare = 8 := by
      rw [hmt, hmf, natDist, Nat.max_eq_right (by omega), Nat.min_eq_left (by omega)]
      omega
    refine ⟨hmf ▸ hfp, hmd, Move.bool_of_ne (by rw [hmf, hmt]; exact hne),
      hmf ▸ hoccf, ?_⟩
    · refine isCapture_false_of ?_ (isEnPassant_false_of_dist (by omega) (by omega))
      apply and_eq_zero_of_testBit
      intro i hi
      rcases testBit_touched_elim hi with rfl | rfl
      · exact hmf ▸ occupiedCo_disjoint hdisj hfour
      · exact hmt ▸ occupiedCo_not_occupied hco hno

theorem doublePush_facts {b : Board} {P T : Nat} {m : Move}
    (hocc : b.occupied < 2 ^ 64) (hco : b.occupiedW ||| b.occupiedB = b.occupied)
    (hdisj : b.occupiedW &&& b.occupiedB = 0)
    (hPsub : ∀ i, P.testBit i = true → (b.pawns &&& b.occupiedCo b.turn).testBit i = true)
    (h : m ∈ b.pseudoLegalDoublePushes
      ((if b.turn = true then
          andNot ((if b.turn = true then andNot (P <<< 8) b.occupied
            else andNot (P >>> 8) b.occupied) <<< 8) b.occupied &&& (BB_RANK 2 ||| BB_RANK 3)
        else
          andNot ((if b.turn = true then andNot (P <<< 8) b.occupied
            else andNot (P >>> 8) b.occupied) >>> 8) b.occupied &&&
            (BB_RANK 5 ||| BB_RANK 4)) &&& T)) :
    b.pawns.testBit m.fromSquare = true ∧ m.drop = none ∧ m.promotion = none ∧
    m.bool = true ∧ b.occupied.testBit m.fromSquare = true ∧ b.isCapture m = false ∧
    squareRank m.toSquare ≠ 0 ∧ squareRank m.toSquare ≠ 7 := by
  have hD : (if b.turn = true then
      andNot ((if b.turn = true then andNot (P <<< 8) b.occupied
        else andNot (P >>> 8) b.occupied) <<< 8) b.occupied &&& (BB_RANK 2 ||| BB_RANK 3)
    else
      andNot ((if b.turn = true then andNot (P <<< 8) b.occupied
        else andNot (P >>> 8) b.occupied) >>> 8) b.occupied &&&
        (BB_RANK 5 ||| BB_RANK 4)) &&& T < 2 ^ 64 := by
    split
    · exact and_lt_left (Nat.and_lt_two_pow _ (Nat.or_lt_two_pow (by decide) (by decide)))
    · exact and_lt_left (Nat.and_lt_two_pow _ (Nat.or_lt_two_pow (by decide) (by decide)))
  obtain ⟨t, htD, hm⟩ := mem_pseudoLegalDoublePushes hD h
  have htD' := testBit_and_left htD
  have hrk : squareRank t ≠ 0 ∧ squareRank t ≠ 7 := by
    by_cases hturn : b.turn = true
    · rw [if_pos hturn] at htD'
      have hr := testBit_and_right htD'
      rw [Nat.testBit_lor] at hr
      rcases Bool.or_eq_true _ _ |>.mp hr with h2 | h3
      · rw [squareRank_of_testBit_BB_RANK h2]; omega
      · rw [squareRank_of_testBit_BB_RANK h3]; omega
    · rw [if_neg hturn] at htD'
      have hr := testBit_and_right htD'
      rw [Nat.testBit_lor] at hr
      rcases Bool.or_eq_true _ _ |>.mp hr with h2 | h3
      · rw [squareRank_of_testBit_BB_RANK h2]; omega
      · rw [squareRank_of_testBit_BB_RANK h3]; omega
  by_cases hturn : b.turn = true
  · rw [if_pos hturn] at htD' hm
    have hsh := testBit_andNot_left (testBit_and_left htD')
    have hno : b.occupied.testBit t = false :=
      testBit_andNot_not_right (testBit_and_left htD')
    rw [Nat.testBit_shiftLeft] at hsh
    obtain ⟨h8, hS8⟩ := Bool.and_eq_true _ _ |>.mp hsh
    have h8' : 8 ≤ t := of_decide_eq_true h8
    rw [if_pos hturn] at hS8
    have hsh2 := testBit_andNot_left hS8
    rw [Nat.testBit_shiftLeft] at hsh2
    obtain ⟨h16, hPt⟩ := Bool.and_eq_true _ _ |>.mp hsh2
    have h16' : 8 ≤ t - 8 := of_decide_eq_true h16
    have hPt' : P.testBit (t - 16) = true := by
      rw [show t - 8 - 8 = t - 16 from by omega] at hPt
      exact hPt
    have hfrom := hPsub _ hPt'
    have hfp : b.pawns.testBit (t - 16) = true := testBit_and_left hfrom
    have hfour : (b.occupiedCo b.turn).testBit (t - 16) = true := testBit_and_right hfrom
    have hoccf : b.occupied.testBit (t - 16) = true := testBit_occupiedCo hco hfour
    have hne : t - 16 ≠ t := by omega
    subst hm
    refine ⟨hfp, rfl, rfl, Move.bool_of_ne (by simpa using hne), hoccf, ?_, hrk.1, hrk.2⟩
    refine isCapture_false_of ?_ (isEnPassant_false_of_dist ?_ ?_)
    · apply and_eq_zero_of_testBit
      intro i hi
      rcases testBit_touched_elim hi with rfl | rfl
      · exact occupiedCo_disjoint hdisj hfour
      · exact occupiedCo_not_occupied hco hno
    · show natDist t (t - 16) ≠ 7
      rw [natDist, Nat.max_eq_left (by omega), Nat.min_eq_right (by omega)]
      omega
    · show natDist t (t - 16) ≠ 9
      rw [natDist, Nat.max_eq_left (by omega), Nat.min_eq_right (by omega)]
      omega
  · rw [if_neg hturn] at htD' hm
    have hsh := testBit_andNot_left (testBit_and_left htD')
    have hno : b.occupied.testBit t = false :=
      testBit_andNot_not_right (testBit_and_left htD')
    rw [Nat.testBit_shiftRight] at hsh
    rw [if_neg hturn] at hsh
    have hsh2 := testBit_andNot_left hsh
    rw [Nat.testBit_shiftRight] at hsh2
    have hPt' : P.testBit (t + 16) = true := by
      rw [show 8 + (8 + t) = t + 16 from by omega] at hsh2
      exact hsh2
    have hfrom := hPsub _ hPt'
    have hfp : b.pawns.testBit (t + 16) = true := testBit_and_left hfrom
    have hfour : (b.occupiedCo b.turn).testBit (t + 16) = true := testBit_and_right hfrom
    have hoccf : b.occupied.testBit (t + 16) = true := testBit_occupiedCo hco hfour
    have hne : t + 16 ≠ t := by omega
    subst hm
    refine ⟨hfp, rfl, rfl, Move.bool_of_ne (by simpa using hne), hoccf, ?_, hrk.1, hrk.2⟩
    refine isCapture_false_of ?_ (isEnPassant_false_of_dist ?_ ?_)
    · apply and_eq_zero_of_testBit
      intro i hi
      rcases testBit_touched_elim hi with rfl | rfl
      · exact occupiedCo_disjoint hdisj hfour
      · exact occupiedCo_not_occupied hco hno
    · show natDist t (t + 16) ≠ 7
      rw [natDist, Nat.max_eq_right (by omega), Nat.min_eq_left (by omega)]
      omega
    · show natDist t (t + 16) ≠ 9
      rw [natDist, Nat.max_eq_right (by omega), Nat.min_eq_left (by omega)]
      omega

theorem epMove_facts {b : Board} {F T : Nat} {m : Move}
    (hocc : b.occupied < 2 ^ 64) (hco : b.occupiedW ||| b.occupiedB = b.occupied)
    (hep64 : b.epSquare.getD 0 < 64)
    (h : m ∈ b.generatePseudoLegalEp F T) :
    b.pawns.testBit m.fromSquare = true ∧ m.drop = none ∧ m.promotion = none ∧
    m.bool = true ∧ b.occupied.testBit m.fromSquare = true ∧
    b.isEnPassant m = true ∧ b.isCapture m = true ∧
    squareRank m.toSquare ≠ 0 ∧ squareRank m.toSquare ≠ 7 := by
  obtain ⟨ep, c, hep, hep0, hepocc, rfl, hcbits, hPA, hrank⟩ :=
    mem_generatePseudoLegalEp hocc hco h
  have hfp : b.pawns.testBit c = true := testBit_and_left hcbits
  have hfour : (b.occupiedCo b.turn).testBit c = true := testBit_and_right hcbits
  have hoccf : b.occupied.testBit c = true := testBit_occupiedCo hco hfour
  have hepnot : b.occupied.testBit ep = false := single_and_eq_zero.mp hepocc
  have hne : c ≠ ep := by
    intro he
    rw [he, hepnot] at hoccf
    cases hoccf
  have hep64' : ep < 64 := by
    rw [hep] at hep64
    simpa using hep64
  have hc64 : c < 64 := testBit_lt hocc hoccf
  have hd : (natDist ep c = 7 ∨ natDist ep c = 9) ∧
      squareRank c = (if !b.turn then squareRank ep + 1 else squareRank ep - 1) :=
    pawn_attacks_facts (!b.turn) ⟨ep, hep64'⟩ ⟨c, hc64⟩ hPA
  have hepr : squareRank ep ≠ 0 ∧ squareRank ep ≠ 7 := by
    by_cases hturn : b.turn = true
    · have hrank4 : (BB_RANK 4).testBit c = true := by
        simpa [hturn] using hrank
      have hc4 := squareRank_of_testBit_BB_RANK hrank4
      have hd2 : squareRank c = squareRank ep - 1 := by
        have hx := hd.2
        rw [hturn] at hx
        simpa using hx
      omega
    · have hturn' : b.turn = false := by
        cases hbt : b.turn
        · rfl
        · exact absurd hbt hturn
      have hrank3 : (BB_RANK 3).testBit c = true := by
        simpa [hturn'] using hrank
      have hc3 := squareRank_of_testBit_BB_RANK hrank3
      have hd2 : squareRank c = squareRank ep + 1 := by
        have hx := hd.2
        rw [hturn'] at hx
        simpa using hx
      omega
  have hepT : b.isEnPassant ⟨c, ep, none, none⟩ = true := by
    simp only [Board.isEnPassant]
    have h1 : (b.pawns &&& BB_SQUARE c != 0) = true :=
      bne_iff_ne.mpr (and_single_ne_zero.mpr hfp)
    have h2 : ((natDist ep c == 7) || (natDist ep c == 9)) = true := by
      rcases hd.1 with hx | hx <;> rw [hx] <;> rfl
    have h3 : ((b.occupied &&& BB_SQUARE ep) == 0) = true := by
      rw [show b.occupied &&& BB_SQUARE ep = 0 from by
        rw [Nat.land_comm]; exact hepocc]
      rfl
    rw [hep, h1, h2, h3]
    simp
  refine ⟨hfp, rfl, rfl, Move.bool_of_ne (by simpa using hne), hoccf, hepT, ?_,
    hepr.1, hepr.2⟩
  simp only [Board.isCapture]
  rw [hepT, Bool.or_true]
theorem mem_pseudo_basic {b : Board} (hInv : BoardInv b) {F T : Nat} {m : Move}
    (h : m ∈ b.generatePseudoLegalMoves F T) :
    m.drop = none ∧ m.bool = true ∧ b.occupied.testBit m.fromSquare = true := by
  have hP56 : b.pawns &&& b.occupiedCo b.turn &&& F < 2 ^ 56 := by
    apply lt_two_pow56_of_backrank
    · exact lt_two_pow_of_subset
        (fun i hi => testBit_occupiedCo hInv.co_union
          (testBit_and_right (testBit_and_left hi))) hInv.occ_lt
    · exact and_eq_zero_of_testBit (fun i hi =>
        disjoint_testBit hInv.pawns_backrank (testBit_and_left (testBit_and_left hi)))
  have hPsub : ∀ i, (b.pawns &&& b.occupiedCo b.turn &&& F).testBit i = true →
      (b.pawns &&& b.occupiedCo b.turn).testBit i = true :=
    fun i hi => testBit_and_left hi
  have hPiece : m ∈ b.pseudoLegalPieceMoves F T →
      m.drop = none ∧ m.bool = true ∧ b.occupied.testBit m.fromSquare = true := by
    intro hm
    obtain ⟨_, _, hd, _, hocc, hbool⟩ :=
      pieceMove_facts hInv.occ_lt hInv.co_union hInv.knights_kings hm
    exact ⟨hd, hbool, hocc⟩
  have hCastle : m ∈ (if F &&& b.kings ≠ 0 then b.generateCastlingMoves F T else []) →
      m.drop = none ∧ m.bool = true ∧ b.occupied.testBit m.fromSquare = true := by
    intro hm
    split at hm
    · obtain ⟨k, cand, rfl, hk, hkour, hcand⟩ :=
        mem_generateCastlingMoves hInv.occ_lt hInv.co_union hInv.cr_rank1 hInv.cr_rank8 hm
      obtain ⟨_, hd, hbool, hocc⟩ :=
        fromChess960_castle_facts b.chess960 hk hkour hcand hInv.kings_rooks hInv.co_union
      exact ⟨hd, hbool, hocc⟩
    · exact absurd hm (List.not_mem_nil m)
  simp only [Board.generatePseudoLegalMoves] at h
  split at h
  · rcases List.mem_append.mp h with hm | hm
    · exact hPiece hm
    · exact hCastle hm
  · rcases List.mem_append.mp h with hm | hm
    rcases List.mem_append.mp hm with hm | hm
    rcases List.mem_append.mp hm with hm | hm
    rcases List.mem_append.mp hm with hm | hm
    rcases List.mem_append.mp hm with hm | hm
    · exact hPiece hm
    · exact hCastle hm
    · obtain ⟨_, hd, hbool, hocc, _, _⟩ :=
        pawnCapture_facts hInv.occ_lt hInv.co_union hInv.co_disjoint hm
      exact ⟨hd, hbool, hocc⟩
    · obtain ⟨_, hd, hbool, hocc, _⟩ :=
        singlePush_facts hInv.occ_lt hInv.co_union hInv.co_disjoint hPsub hP56 hm
      exact ⟨hd, hbool, hocc⟩
    · obtain ⟨_, hd, _, hbool, hocc, _, _, _⟩ :=
        doublePush_facts hInv.occ_lt hInv.co_union hInv.co_disjoint hPsub hm
      exact ⟨hd, hbool, hocc⟩
    · split at hm
      · split at hm
        · obtain ⟨_, hd, _, hbool, hocc, _, _, _, _⟩ :=
            epMove_facts hInv.occ_lt hInv.co_union hInv.ep_lt hm
          exact ⟨hd, hbool, hocc⟩
        · exact absurd hm (List.not_mem_nil m)
      · exact absurd hm (List.not_mem_nil m)

theorem mem_evasions_basic {b : Board} (hInv : BoardInv b) {king checkers F T : Nat}
    {m : Move} (hkour : (b.occupiedCo b.turn).testBit king = true)
    (h : m ∈ b._generateEvasions king checkers F T) :
    m.drop = none ∧ m.bool = true ∧ b.occupied.testBit m.fromSquare = true := by
  simp only [Board._generateEvasions] at h
  rcases List.mem_append.mp h with hm | hm
  · split at hm
    · rw [List.mem_map] at hm
      obtain ⟨t, ht, rfl⟩ := hm
      have htb := (scanReversed_mem
        (and_lt_left (andNot_lt (andNot_lt (stepAttacks_lt king _)))) t).mp ht
      have htNotOur : (b.occupiedCo b.turn).testBit t = false :=
        testBit_andNot_not_right (testBit_andNot_left (testBit_and_left htb))
      have hne : king ≠ t := by
        intro he
        rw [he, htNotOur] at hkour
        cases hkour
      exact ⟨rfl, Move.bool_of_ne (by simpa using hne),
        testBit_occupiedCo hInv.co_union hkour⟩
    · exact absurd hm (List.not_mem_nil m)
  · split at hm
    · rcases List.mem_append.mp hm with hm2 | hm2
      · exact mem_pseudo_basic hInv hm2
      · repeat' split at hm2
        all_goals first
          | (obtain ⟨_, hd, _, hbool, hocc, _, _, _, _⟩ :=
               epMove_facts hInv.occ_lt hInv.co_union hInv.ep_lt hm2
             exact ⟨hd, hbool, hocc⟩)
          | exact absurd hm2 (List.not_mem_nil m)
    · exact absurd hm (List.not_mem_nil m)

theorem mem_generateLegalMoves_basic {b : Board} (hInv : BoardInv b) {F T : Nat}
    {m : Move} (h : m ∈ b.generateLegalMoves F T) :
    m.drop = none ∧ m.bool = true ∧ b.occupied.testBit m.fromSquare = true := by
  simp only [Board.generateLegalMoves, Board.isVariantEnd, Bool.false_eq_true,
    if_false] at h
  split at h
  · rename_i hkm
    have hkmlt : b.kings &&& b.occupiedCo b.turn < 2 ^ 64 :=
      Nat.and_lt_two_pow _ (occupiedCo_lt hInv.occ_lt hInv.co_union b.turn)
    have hkb : (b.kings &&& b.occupiedCo b.turn).testBit
        (msb (b.kings &&& b.occupiedCo b.turn)) = true :=
      testBit_msb hkm (lt_trans hkmlt (by norm_num))
    have hkour := testBit_and_right hkb
    split at h
    · exact mem_evasions_basic hInv hkour (List.mem_filter.mp h).1
    · exact mem_pseudo_basic hInv (List.mem_filter.mp h).1
  · exact mem_pseudo_basic hInv h

theorem pawnMoveEmissions_eq_spec : pawnMoveEmissions = specPromotionEmissions := rfl

theorem map_pair_flatMap {α β γ : Type} (l : List β) (a : α) (h : α → β → List γ) :
    (l.map (fun x => (a, x))).flatMap (fun p => h p.1 p.2) = l.flatMap (fun x => h a x) := by
  induction l with
  | nil => rfl
  | cons x l ih => simp only [List.map_cons, List.flatMap_cons, ih]

theorem flatMap_flatMap_eq_pairs {α β γ : Type} (xs : List α) (g : α → List β)
    (h : α → β → List γ) :
    xs.flatMap (fun a => (g a).flatMap (fun x => h a x))
      = (xs.flatMap (fun a => (g a).map (fun x => (a, x)))).flatMap (fun p => h p.1 p.2) := by
  induction xs with
  | nil => rfl
  | cons a xs ih =>
    simp only [List.flatMap_cons, List.flatMap_append, ih, map_pair_flatMap]

theorem map_fst_flatMap {γ : Type} (l : List Nat) (f : Nat → Nat) (h : Nat → Nat → List γ) :
    (l.map (fun t => (f t, t))).flatMap (fun p => h p.1 p.2) = l.flatMap (fun t => h (f t) t) := by
  induction l with
  | nil => rfl
  | cons x l ih => simp only [List.map_cons, List.flatMap_cons, ih]

theorem pseudoLegalPawnCaptures_eq_pairs (b : Board) (P T : Nat) :
    b.pseudoLegalPawnCaptures P T
      = ((scanReversed P).flatMap (fun f =>
          (scanReversed (BB_PAWN_ATTACKS b.turn f &&& b.occupiedCo (!b.turn) &&& T)).map
            (fun t => (f, t)))).flatMap (fun p => specPromotionEmissions p.1 p.2) := by
  simp only [Board.pseudoLegalPawnCaptures]
  rw [pawnMoveEmissions_eq_spec]
  exact flatMap_flatMap_eq_pairs ..

theorem pseudoLegalSinglePushes_eq_pairs (b : Board) (S : Nat) :
    b.pseudoLegalSinglePushes S
      = ((scanReversed S).map (fun t => ((if b.turn = true then t - 8 else t + 8), t))).flatMap
          (fun p => specPromotionEmissions p.1 p.2) := by
  simp only [Board.pseudoLegalSinglePushes]
  rw [pawnMoveEmissions_eq_spec]
  exact (map_fst_flatMap ..).symm

theorem pseudoLegalDoublePushes_eq_pairs (b : Board) (D : Nat) :
    b.pseudoLegalDoublePushes D
      = ((scanReversed D).map (fun t => ((if b.turn = true then t - 16 else t + 16), t))).map
          (fun p => Move.mk p.1 p.2 none none) := by
  simp only [Board.pseudoLegalDoublePushes, List.map_map]
  rfl

/-- Claim C9 (amended): on a board satisfying the data-model invariants,
`generatePseudoLegalMoves()` with default masks emits, in order: non-pawn
piece moves (never castling), castling moves, pawn captures other than en
passant, pawn single pushes (never captures), pawn double pushes (never
captures, never to a promotion rank), and finally the en-passant captures —
not before the pushes, as the claim states.  Every pawn capture or single
push targeting rank 1 or 8 is emitted as the four-promotion group
`specPromotionEmissions`, i.e. queen, rook, bishop, knight in that order. -/
theorem generatePseudoLegalMoves_emission_order (b : Board) (hInv : BoardInv b) :
    ∃ (pieces castling : List Move) (capPairs pushPairs dblPairs : List (Nat × Nat))
      (eps : List Move),
      b.generatePseudoLegalMoves BB_ALL BB_ALL
        = pieces ++ castling
            ++ capPairs.flatMap (fun p => specPromotionEmissions p.1 p.2)
            ++ pushPairs.flatMap (fun p => specPromotionEmissions p.1 p.2)
            ++ dblPairs.map (fun p => Move.mk p.1 p.2 none none)
            ++ eps ∧
      (∀ m ∈ pieces, b.pawns.testBit m.fromSquare = false ∧ b.isCastling m = false) ∧
      (∀ m ∈ castling, b.isCastling m = true) ∧
      (∀ p ∈ capPairs, ∀ m ∈ specPromotionEmissions p.1 p.2,
        b.pawns.testBit m.fromSquare = true ∧ b.isCapture m = true ∧
          b.isEnPassant m = false) ∧
      (∀ p ∈ pushPairs, ∀ m ∈ specPromotionEmissions p.1 p.2,
        b.pawns.testBit m.fromSquare = true ∧ b.isCapture m = false) ∧
      (∀ p ∈ dblPairs, b.pawns.testBit p.1 = true ∧
        b.isCapture (Move.mk p.1 p.2 none none) = false ∧
        squareRank p.2 ≠ 0 ∧ squareRank p.2 ≠ 7) ∧
      (∀ m ∈ eps, b.pawns.testBit m.fromSquare = true ∧ b.isEnPassant m = true ∧
        b.isCapture m = true ∧ m.promotion = none ∧
        squareRank m.toSquare ≠ 0 ∧ squareRank m.toSquare ≠ 7) := by
  have hP56 : b.pawns &&& b.occupiedCo b.turn &&& BB_ALL < 2 ^ 56 := by
    apply lt_two_pow56_of_backrank
    · exact lt_two_pow_of_subset
        (fun i hi => testBit_occupiedCo hInv.co_union
          (testBit_and_right (testBit_and_left hi))) hInv.occ_lt
    · exact and_eq_zero_of_testBit (fun i hi =>
        disjoint_testBit hInv.pawns_backrank (testBit_and_left (testBit_and_left hi)))
  have hPsub : ∀ i, (b.pawns &&& b.occupiedCo b.turn &&& BB_ALL).testBit i = true →
      (b.pawns &&& b.occupiedCo b.turn).testBit i = true :=
    fun i hi => testBit_and_left hi
  have hPieces : ∀ m ∈ b.pseudoLegalPieceMoves BB_ALL BB_ALL,
      b.pawns.testBit m.fromSquare = false ∧ b.isCastling m = false := by
    intro m hm
    obtain ⟨h1, h2, _⟩ :=
      pieceMove_facts hInv.occ_lt hInv.co_union hInv.knights_kings hm
    exact ⟨h1, h2⟩
  have hCastling : ∀ m ∈ (if BB_ALL &&& b.kings ≠ 0 then
      b.generateCastlingMoves BB_ALL BB_ALL else []), b.isCastling m = true := by
    intro m hm
    split at hm
    · obtain ⟨k, cand, rfl, hk, hkour, hcand⟩ :=
        mem_generateCastlingMoves hInv.occ_lt hInv.co_union hInv.cr_rank1 hInv.cr_rank8 hm
      exact (fromChess960_castle_facts b.chess960 hk hkour hcand hInv.kings_rooks
        hInv.co_union).1
    · exact absurd hm (List.not_mem_nil m)
  simp only [Board.generatePseudoLegalMoves]
  split
  · refine ⟨b.pseudoLegalPieceMoves BB_ALL BB_ALL,
      (if BB_ALL &&& b.kings ≠ 0 then b.generateCastlingMoves BB_ALL BB_ALL else []),
      [], [], [], [], by simp, hPieces, hCastling, ?_, ?_, ?_, ?_⟩
    · exact fun p hp => absurd hp (List.not_mem_nil p)
    · exact fun p hp => absurd hp (List.not_mem_nil p)
    · exact fun p hp => absurd hp (List.not_mem_nil p)
    · exact fun m hm => absurd hm (List.not_mem_nil m)
  · refine ⟨b.pseudoLegalPieceMoves BB_ALL BB_ALL,
      (if BB_ALL &&& b.kings ≠ 0 then b.generateCastlingMoves BB_ALL BB_ALL else []),
      (scanReversed (b.pawns &&& b.occupiedCo b.turn &&& BB_ALL)).flatMap (fun f =>
        (scanReversed (BB_PAWN_ATTACKS b.turn f &&& b.occupiedCo (!b.turn) &&&
          BB_ALL)).map (fun t => (f, t))),
      (scanReversed ((if b.turn = true then
          andNot ((b.pawns &&& b.occupiedCo b.turn &&& BB_ALL) <<< 8) b.occupied
        else andNot ((b.pawns &&& b.occupiedCo b.turn &&& BB_ALL) >>> 8) b.occupied) &&&
          BB_ALL)).map (fun t => ((if b.turn = true then t - 8 else t + 8), t)),
      (scanReversed ((if b.turn = true then
          andNot ((if b.turn = true then
            andNot ((b.pawns &&& b.occupiedCo b.turn &&& BB_ALL) <<< 8) b.occupied
          else andNot ((b.pawns &&& b.occupiedCo b.turn &&& BB_ALL) >>> 8) b.occupied) <<< 8)
            b.occupied &&& (BB_RANK 2 ||| BB_RANK 3)
        else
          andNot ((if b.turn = true then
            andNot ((b.pawns &&& b.occupiedCo b.turn &&& BB_ALL) <<< 8) b.occupied
          else andNot ((b.pawns &&& b.occupiedCo b.turn &&& BB_ALL) >>> 8) b.occupied) >>> 8)
            b.occupied &&& (BB_RANK 5 ||| BB_RANK 4)) &&& BB_ALL)).map
        (fun t => ((if b.turn = true then t - 16 else t + 16), t)),
      (match b.epSquare with
        | some ep => if ep ≠ 0 then b.generatePseudoLegalEp BB_ALL BB_ALL else []
        | none => []),
      ?_, hPieces, hCastling, ?_, ?_, ?_, ?_⟩
    · rw [pseudoLegalPawnCaptures_eq_pairs, pseudoLegalSinglePushes_eq_pairs,
        pseudoLegalDoublePushes_eq_pairs]
    · intro p hp m hm
      have hmem : m ∈ b.pseudoLegalPawnCaptures
          (b.pawns &&& b.occupiedCo b.turn &&& BB_ALL) BB_ALL := by
        rw [pseudoLegalPawnCaptures_eq_pairs]
        exact List.mem_flatMap.mpr ⟨p, hp, hm⟩
      obtain ⟨h1, _, _, _, h2, h3⟩ :=
        pawnCapture_facts hInv.occ_lt hInv.co_union hInv.co_disjoint hmem
      exact ⟨h1, h2, h3⟩
    · intro p hp m hm
      have hmem : m ∈ b.pseudoLegalSinglePushes
          ((if b.turn = true then
              andNot ((b.pawns &&& b.occupiedCo b.turn &&& BB_ALL) <<< 8) b.occupied
            else andNot ((b.pawns &&& b.occupiedCo b.turn &&& BB_ALL) >>> 8) b.occupied) &&&
            BB_ALL) := by
        rw [pseudoLegalSinglePushes_eq_pairs]
        exact List.mem_flatMap.mpr ⟨p, hp, hm⟩
      obtain ⟨h1, _, _, _, h2⟩ :=
        singlePush_facts hInv.occ_lt hInv.co_union hInv.co_disjoint hPsub hP56 hmem
      exact ⟨h1, h2⟩
    · intro p hp
      have hmem : Move.mk p.1 p.2 none none ∈ b.pseudoLegalDoublePushes
          ((if b.turn = true then
              andNot ((if b.turn = true then
                andNot ((b.pawns &&& b.occupiedCo b.turn &&& BB_ALL) <<< 8) b.occupied
              else andNot ((b.pawns &&& b.occupiedCo b.turn &&& BB_ALL) >>> 8) b.occupied) <<< 8)
                b.occupied &&& (BB_RANK 2 ||| BB_RANK 3)
            else
              andNot ((if b.turn = true then
                andNot ((b.pawns &&& b.occupiedCo b.turn &&& BB_ALL) <<< 8) b.occupied
              else andNot ((b.pawns &&& b.occupiedCo b.turn &&& BB_ALL) >>> 8) b.occupied) >>> 8)
                b.occupied &&& (BB_RANK 5 ||| BB_RANK 4)) &&& BB_ALL) := by
        rw [pseudoLegalDoublePushes_eq_pairs]
        exact List.mem_map.mpr ⟨p, hp, rfl⟩
      obtain ⟨h1, _, _, _, _, h2, h3, h4⟩ :=
        doublePush_facts hInv.occ_lt hInv.co_union hInv.co_disjoint hPsub hmem
      exact ⟨h1, h2, h3, h4⟩
    · intro m hm
      repeat' split at hm
      all_goals first
        | (obtain ⟨h1, _, h2, _, _, h3, h4, h5, h6⟩ :=
             epMove_facts hInv.occ_lt hInv.co_union hInv.ep_lt hm
           exact ⟨h1, h3, h4, h2, h5, h6⟩)
        | exact absurd hm (List.not_mem_nil m)

/-- Counterexample to claim C9 as stated ("all pawn captures appear before
all pawn pushes"): on "4k3/8/8/3pP3/8/8/8/4K3 w - d6 0 1" the en-passant
capture e5d6 (a pawn capture by `isCapture`) is emitted after the pawn push
e5e6. -/
theorem generatePseudoLegalMoves_ep_capture_after_pushes :
    ((Board.fromFen "4k3/8/8/3pP3/8/8/8/4K3 w - d6 0 1").toOption.getD
        Board.startBoard).generatePseudoLegalMoves BB_ALL BB_ALL =
      [⟨4, 13, none, none⟩, ⟨4, 12, none, none⟩, ⟨4, 11, none, none⟩,
       ⟨4, 5, none, none⟩, ⟨4, 3, none, none⟩,
       ⟨36, 44, none, none⟩, ⟨36, 43, none, none⟩] ∧
    ((Board.fromFen "4k3/8/8/3pP3/8/8/8/4K3 w - d6 0 1").toOption.getD
        Board.startBoard).pawns.testBit 36 = true ∧
    ((Board.fromFen "4k3/8/8/3pP3/8/8/8/4K3 w - d6 0 1").toOption.getD
        Board.startBoard).isCapture ⟨36, 44, none, none⟩ = false ∧
    ((Board.fromFen "4k3/8/8/3pP3/8/8/8/4K3 w - d6 0 1").toOption.getD
        Board.startBoard).isCapture ⟨36, 43, none, none⟩ = true := by
  refine ⟨by decide, by decide, by decide, by decide⟩

/-- Witness for `generatePseudoLegalMoves_emission_order` on the standard
starting position. -/
theorem generatePseudoLegalMoves_emission_order_witness :
    BoardInv Board.startBoard ∧
    (∃ (pieces castling : List Move) (capPairs pushPairs dblPairs : List (Nat × Nat))
      (eps : List Move),
      Board.startBoard.generatePseudoLegalMoves BB_ALL BB_ALL
        = pieces ++ castling
            ++ capPairs.flatMap (fun p => specPromotionEmissions p.1 p.2)
            ++ pushPairs.flatMap (fun p => specPromotionEmissions p.1 p.2)
            ++ dblPairs.map (fun p => Move.mk p.1 p.2 none none)
            ++ eps ∧
      (∀ m ∈ pieces, Board.startBoard.pawns.testBit m.fromSquare = false ∧
        Board.startBoard.isCastling m = false) ∧
      (∀ m ∈ castling, Board.startBoard.isCastling m = true) ∧
      (∀ p ∈ capPairs, ∀ m ∈ specPromotionEmissions p.1 p.2,
        Board.startBoard.pawns.testBit m.fromSquare = true ∧
        Board.startBoard.isCapture m = true ∧ Board.startBoard.isEnPassant m = false) ∧
      (∀ p ∈ pushPairs, ∀ m ∈ specPromotionEmissions p.1 p.2,
        Board.startBoard.pawns.testBit m.fromSquare = true ∧
        Board.startBoard.isCapture m = false) ∧
      (∀ p ∈ dblPairs, Board.startBoard.pawns.testBit p.1 = true ∧
        Board.startBoard.isCapture (Move.mk p.1 p.2 none none) = false ∧
        squareRank p.2 ≠ 0 ∧ squareRank p.2 ≠ 7) ∧
      (∀ m ∈ eps, Board.startBoard.pawns.testBit m.fromSquare = true ∧
        Board.startBoard.isEnPassant m = true ∧
        Board.startBoard.isCapture m = true ∧ m.promotion = none ∧
        squareRank m.toSquare ≠ 0 ∧ squareRank m.toSquare ≠ 7)) :=
  ⟨⟨by decide, by decide, by decide, by decide, by decide, by decide, by decide,
    by decide, by decide⟩,
   generatePseudoLegalMoves_emission_order Board.startBoard
    ⟨by decide, by decide, by decide, by decide, by decide, by decide, by decide,
      by decide, by decide⟩⟩

theorem toChess960_fromSquare (b : Board) (m : Move) :
    (b._toChess960 m).fromSquare = m.fromSquare := by
  rw [Board._toChess960]
  repeat' split
  all_goals simp_all

theorem toChess960_drop (b : Board) (m : Move) (h : m.drop = none) :
    (b._toChess960 m).drop = none := by
  rw [Board._toChess960]
  repeat' split
  all_goals simp_all

theorem toChess960_bool (b : Board) (m : Move) (h : m.bool = true) :
    (b._toChess960 m).bool = true := by
  rw [Board._toChess960]
  repeat' split
  all_goals first
    | exact h
    | decide

theorem Board.pushPrelude_occupied (b : Board) (move : Move) :
    (b.pushPrelude move).occupied = b.occupied := by
  simp only [Board.pushPrelude]
  split
  all_goals rfl

theorem Board.removePieceAt_snd (b : Board) (s : Nat) :
    (b._removePieceAt s).2 = b.pieceTypeAt s := by
  simp only [Board._removePieceAt]
  split
  all_goals rename_i h
  all_goals rw [h]

theorem restore_fromBoard {b c : Board} (h1 : c.chess960 = b.chess960)
    (h2 : c.moveStack = b.moveStack) (h3 : c.stack = b.stack) :
    (BoardState.fromBoard b).restore c = b := by
  cases b
  cases c
  simp_all [BoardState.fromBoard, BoardState.restore]

theorem pieceTypeAt_isSome_of_testBit {b : Board} {s : Nat}
    (h : b.occupied.testBit s = true) : ∃ pt, b.pieceTypeAt s = some pt := by
  rw [Board.pieceTypeAt]
  rw [if_neg (fun hz => by rw [and_single_eq_zero.mp hz] at h; cases h)]
  repeat' split
  all_goals exact ⟨_, rfl⟩

theorem removePieceAt_fst_moveStack (b : Board) (s : Nat) :
    ((b._removePieceAt s).1).moveStack = b.moveStack :=
  (Board._removePieceAt_preserves b s).2.2.2.2.2.2.1

theorem removePieceAt_fst_stack (b : Board) (s : Nat) :
    ((b._removePieceAt s).1).stack = b.stack :=
  (Board._removePieceAt_preserves b s).2.2.2.2.2.2.2

theorem removePieceAt_fst_chess960 (b : Board) (s : Nat) :
    ((b._removePieceAt s).1).chess960 = b.chess960 :=
  (Board._removePieceAt_preserves b s).2.2.2.2.2.1

theorem pushCastlingRightsUpdate_moveStack (b : Board) (m : Move) (pt : Nat) (pr : Bool)
    (cap : Option Nat) : (b.pushCastlingRightsUpdate m pt pr cap).moveStack = b.moveStack :=
  (Board.pushCastlingRightsUpdate_preserves b m pt pr cap).2.2.2.1

theorem pushCastlingRightsUpdate_stack (b : Board) (m : Move) (pt : Nat) (pr : Bool)
    (cap : Option Nat) : (b.pushCastlingRightsUpdate m pt pr cap).stack = b.stack :=
  (Board.pushCastlingRightsUpdate_preserves b m pt pr cap).2.2.2.2.1

theorem pushCastlingRightsUpdate_chess960 (b : Board) (m : Move) (pt : Nat) (pr : Bool)
    (cap : Option Nat) : (b.pushCastlingRightsUpdate m pt pr cap).chess960 = b.chess960 :=
  (Board.pushCastlingRightsUpdate_preserves b m pt pr cap).2.2.1

theorem pushPawnStep_moveStack (b : Board) (m : Move) (ep : Option Nat) (pt : Nat)
    (cap : Option Nat) : (b.pushPawnStep m ep pt cap).moveStack = b.moveStack :=
  (Board.pushPawnStep_fields b m ep pt cap).2.2.2.1

theorem pushPawnStep_stack (b : Board) (m : Move) (ep : Option Nat) (pt : Nat)
    (cap : Option Nat) : (b.pushPawnStep m ep pt cap).stack = b.stack :=
  (Board.pushPawnStep_fields b m ep pt cap).2.2.2.2.1

theorem pushPawnStep_chess960 (b : Board) (m : Move) (ep : Option Nat) (pt : Nat)
    (cap : Option Nat) : (b.pushPawnStep m ep pt cap).chess960 = b.chess960 :=
  (Board.pushPawnStep_fields b m ep pt cap).2.2.1

theorem pushFinishPlacement_moveStack (b : Board) (m : Move) (pt : Nat) (pr : Bool) :
    (b.pushFinishPlacement m pt pr).moveStack = b.moveStack :=
  (Board.pushFinishPlacement_preserves b m pt pr).2.2.2.1

theorem pushFinishPlacement_stack (b : Board) (m : Move) (pt : Nat) (pr : Bool) :
    (b.pushFinishPlacement m pt pr).stack = b.stack :=
  (Board.pushFinishPlacement_preserves b m pt pr).2.2.2.2.1

theorem pushFinishPlacement_chess960 (b : Board) (m : Move) (pt : Nat) (pr : Bool) :
    (b.pushFinishPlacement m pt pr).chess960 = b.chess960 :=
  (Board.pushFinishPlacement_preserves b m pt pr).2.2.1

theorem pop_of_stacks {bf target : Board} {rec : Move}
    (hms : bf.moveStack = rec :: target.moveStack)
    (hst : bf.stack = BoardState.fromBoard target :: target.stack)
    (hch : bf.chess960 = target.chess960) :
    bf.pop = .ok (rec, target) := by
  simp only [Board.pop]
  rw [hms, hst]
  dsimp only
  rw [restore_fromBoard (c := { bf with moveStack := target.moveStack, stack := target.stack }) hch rfl rfl]

theorem push_pop_roundtrip_aux {b : Board} {m : Move}
    (hbool : m.bool = true) (hdrop : m.drop = none)
    (hocc : b.occupied.testBit m.fromSquare = true) :
    (b.push m).bind Board.pop =
      .ok (b._fromChess960 b.chess960 (b._toChess960 m).fromSquare
            (b._toChess960 m).toSquare (b._toChess960 m).promotion
            (b._toChess960 m).drop, b) := by
  simp only [Board.push]
  set move := b._toChess960 m with hmv
  have hmbool : move.bool = true := toChess960_bool b m hbool
  have hmdrop : move.drop = none := toChess960_drop b m hdrop
  have hmfrom : move.fromSquare = m.fromSquare := toChess960_fromSquare b m
  rw [hmbool, hmdrop]
  simp only [Bool.not_true, Bool.false_eq_true, if_false]
  obtain ⟨hep1, hst1, hms1, hch1, htn1⟩ := Board.pushPrelude_fields b move
  have hocc1 : (b.pushPrelude move).occupied = b.occupied := Board.pushPrelude_occupied b move
  set b1 := b.pushPrelude move with hb1
  set b2 := if b1.isZeroing move = true then { b1 with halfmoveClock := 0 } else b1 with hb2
  have hb2f : b2.moveStack = b1.moveStack ∧ b2.stack = b1.stack ∧
      b2.chess960 = b1.chess960 ∧ b2.occupied = b1.occupied := by
    rw [hb2]
    split
    · exact ⟨rfl, rfl, rfl, rfl⟩
    · exact ⟨rfl, rfl, rfl, rfl⟩
  rcases hrm : b2._removePieceAt move.fromSquare with ⟨b3, pt⟩
  have hps := Board.removePieceAt_snd b2 move.fromSquare
  rw [hrm] at hps
  obtain ⟨ptv, hptv⟩ := pieceTypeAt_isSome_of_testBit
    (show b2.occupied.testBit move.fromSquare = true from by
      rw [hb2f.2.2.2, hocc1, hmfrom]; exact hocc)
  have hpt : pt = some ptv := by
    rw [hptv] at hps
    exact hps
  subst hpt
  have hb3ms : b3.moveStack = b2.moveStack := by
    rw [show b3 = (b2._removePieceAt move.fromSquare).1 from by rw [hrm]]
    exact removePieceAt_fst_moveStack b2 move.fromSquare
  have hb3st : b3.stack = b2.stack := by
    rw [show b3 = (b2._removePieceAt move.fromSquare).1 from by rw [hrm]]
    exact removePieceAt_fst_stack b2 move.fromSquare
  have hb3ch : b3.chess960 = b2.chess960 := by
    rw [show b3 = (b2._removePieceAt move.fromSquare).1 from by rw [hrm]]
    exact removePieceAt_fst_chess960 b2 move.fromSquare
  simp only [Except.bind]
  apply pop_of_stacks
  · simp only [pushFinishPlacement_moveStack, pushPawnStep_moveStack,
      pushCastlingRightsUpdate_moveStack]
    rw [hb3ms, hb2f.1, hms1, hmdrop]
  · simp only [pushFinishPlacement_stack, pushPawnStep_stack,
      pushCastlingRightsUpdate_stack]
    rw [hb3st, hb2f.2.1, hst1]
  · simp only [pushFinishPlacement_chess960, pushPawnStep_chess960,
      pushCastlingRightsUpdate_chess960]
    rw [hb3ch, hb2f.2.2.1, hch1]

/-- Claim C3: for a board satisfying the data-model invariants and any move
produced by `generateLegalMoves()`, `push(m)` succeeds and `pop()` then
returns the exact move `push` recorded on the move stack together with a
board equal, field for field (bitboards, scalars and both stacks), to the
original. -/
theorem generateLegalMoves_push_pop_roundtrip (b : Board) (m : Move)
    (hInv : BoardInv b) (hm : m ∈ b.generateLegalMoves BB_ALL BB_ALL) :
    (b.push m).bind Board.pop =
      .ok (b._fromChess960 b.chess960 (b._toChess960 m).fromSquare
            (b._toChess960 m).toSquare (b._toChess960 m).promotion
            (b._toChess960 m).drop, b) := by
  obtain ⟨hd, hb, ho⟩ := mem_generateLegalMoves_basic hInv hm
  exact push_pop_roundtrip_aux hb hd ho

/-- Witness for `generateLegalMoves_push_pop_roundtrip`: e2e4 on the
standard starting position. -/
theorem generateLegalMoves_push_pop_roundtrip_witness :
    BoardInv Board.startBoard ∧
    (Move.mk 12 28 none none) ∈ Board.startBoard.generateLegalMoves BB_ALL BB_ALL ∧
    (Board.startBoard.push (Move.mk 12 28 none none)).bind Board.pop =
      .ok (Board.startBoard._fromChess960 Board.startBoard.chess960
            (Board.startBoard._toChess960 (Move.mk 12 28 none none)).fromSquare
            (Board.startBoard._toChess960 (Move.mk 12 28 none none)).toSquare
            (Board.startBoard._toChess960 (Move.mk 12 28 none none)).promotion
            (Board.startBoard._toChess960 (Move.mk 12 28 none none)).drop,
          Board.startBoard) :=
  ⟨⟨by decide, by decide, by decide, by decide, by decide, by decide, by decide,
    by decide, by decide⟩,
   by decide,
   generateLegalMoves_push_pop_roundtrip Board.startBoard (Move.mk 12 28 none none)
    ⟨by decide, by decide, by decide, by decide, by decide, by decide, by decide,
      by decide, by decide⟩
    (by decide)⟩

/-- The standard starting position: e2e4 is produced by
`generateLegalMoves()`, its UCI is `e2e4`, and yet `parseUci("e2e4")` throws
`IllegalMoveError`: `isPseudoLegal` sends pawn moves to
`utils.iterIncludes(this.generatePseudoLegalMoves(...), move)`, whose JS
`===` comparison on freshly constructed `Move` objects never succeeds.
(Claim C1.) -/
theorem parseUci_uci_roundTrip_fails_on_e2e4 :
    (Move.mk 12 28 none none) ∈ Board.startBoard.generateLegalMoves BB_ALL BB_ALL ∧
    (Move.mk 12 28 none none).uci = "e2e4" ∧
    Board.startBoard.parseUci "e2e4" = .error .illegalMove := by
  refine ⟨by decide, rfl, rfl⟩

/-- A `Board` freshly constructed from the FEN
`4k3/8/8/8/8/8/8/4K3 w KQkq - 0 1` (kings only, no rooks, empty move stack):
`cleanCastlingRights()` returns the raw stored rights `BB_H1 | BB_H8` —
squares holding no rook at all — because `if (this._stack)` is true for every
JS array, while the (dead) filtering branch would return `0`.  (Claim C2.) -/
theorem cleanCastlingRights_returns_unfiltered_rights :
    (Board.fromFen "4k3/8/8/8/8/8/8/4K3 w KQkq - 0 1").map
        (fun b => (b.moveStack, b.stack, b.rooks, b.cleanCastlingRights,
          b.cleanCastlingRights &&& b.rooks, b.cleanCastlingRightsFiltered)) =
      .ok ([], [], 0, 0x8000000000000080, 0, 0) ∧
    (0x8000000000000080 : Nat) ≠ 0 := by
  refine ⟨rfl, by decide⟩

/-- Pushing a pawn drop does not reset the half-move clock: on a position
with clock 5, `push(P@e4)` leaves the clock at 6, although
`isZeroing` classifies the pawn drop as zeroing — the drop branch of `push`
returns before the `isZeroing` check runs.  (Claim C4.) -/
theorem push_pawnDrop_does_not_reset_halfmoveClock :
    (Board.fromFen "4k3/8/8/8/8/8/8/4K3 w - - 5 1").map
        (fun b => (b.halfmoveClock, b.isZeroing (Move.mk 28 28 none (some PAWN)),
          (b.push (Move.mk 28 28 none (some PAWN))).map Board.halfmoveClock)) =
      .ok (5, true, .ok 6) ∧ (6 : Nat) ≠ 0 := by
  refine ⟨rfl, by decide⟩

/-- `san(Move.null())` does not produce `--`: the guard `if (!move)` never
fires on a (always truthy) `Move` object, so on the standard starting
position the null move is formatted as a rook "move" `Ra1`, and on a position
with an empty a1 square it throws.  (Claim C5.) -/
theorem san_null_move_is_not_dashes :
    Board.startBoard.san Move.nullMove = .ok "Ra1" ∧
    "Ra1" ≠ "--" ∧
    (do
      let b ← Board.fromFen "4k3/8/8/8/8/8/8/4K3 w - - 0 1"
      b.san Move.nullMove) = .error .valueError := by
  refine ⟨rfl, by decide, rfl⟩

/-- For all distinct squares `a ≠ b`: `between(a,b)` is contained in
`ray(a,b)` and omits both endpoints; when the squares share no rank, file or
diagonal both sets are empty, and when they do share one the containment is
strict.  (Claim C7.) -/
theorem between_subset_ray_of_ne :
    ∀ a b : Fin 64, a ≠ b →
      between a b &&& ray a b = between a b ∧
      (between a b).testBit a = false ∧
      (between a b).testBit b = false ∧
      (¬ sharesRankFileOrDiag a b → between a b = 0 ∧ ray a b = 0) ∧
      (sharesRankFileOrDiag a b → between a b ≠ ray a b) := by
  decide

/-- Witness for `between_subset_ray_of_ne` at `a = a1`, `b = b2`. -/
theorem between_subset_ray_of_ne_witness :
    ((0 : Fin 64) ≠ 9) ∧
      (between (0 : Fin 64) (9 : Fin 64) &&& ray (0 : Fin 64) (9 : Fin 64) =
          between (0 : Fin 64) (9 : Fin 64) ∧
        (between (0 : Fin 64) (9 : Fin 64)).testBit (0 : Fin 64) = false ∧
        (between (0 : Fin 64) (9 : Fin 64)).testBit ((9 : Fin 64) : Nat) = false ∧
        (¬ sharesRankFileOrDiag (0 : Fin 64) (9 : Fin 64) →
          between (0 : Fin 64) (9 : Fin 64) = 0 ∧ ray (0 : Fin 64) (9 : Fin 64) = 0) ∧
        (sharesRankFileOrDiag (0 : Fin 64) (9 : Fin 64) →
          between (0 : Fin 64) (9 : Fin 64) ≠ ray (0 : Fin 64) (9 : Fin 64))) :=
  ⟨by decide, between_subset_ray_of_ne 0 9 (by decide)⟩

/-- If the board's en-passant square is clear, the pawn block leaves it
clear or sets it on rank index 2 or 5. -/
theorem Board.pushPawnStep_epSquare_rank (b : Board) (m : Move) (ep : Option Nat)
    (pt : Nat) (cap : Option Nat) (s : Nat) (h0 : b.epSquare = none)
    (h : (b.pushPawnStep m ep pt cap).epSquare = some s) :
    squareRank s = 2 ∨ squareRank s = 5 := by
  rcases (Board.pushPawnStep_fields b m ep pt cap).1 with h1 | ⟨hr, h1⟩ | ⟨hr, h1⟩
  · rw [h1, h0] at h; cases h
  · rw [h1] at h; cases h; exact Or.inl (squareRank_add8 hr)
  · rw [h1] at h; cases h; exact Or.inr (squareRank_sub8 hr)

/-- The amended part of claim C8 that the code does satisfy: `push` clears
the en-passant square and re-sets it only one rank behind a double pawn push,
so after any successful `push` the square, if set, lies on rank index 2
(rank 3, White just moved) or rank index 5 (rank 6, Black just moved).
(Claim C8, amended.) -/
theorem push_keeps_epSquare_on_rank_3_or_6 (b : Board) (m : Move) (b2 : Board)
    (hp : b.push m = .ok b2) :
    ∀ s, b2.epSquare = some s → squareRank s = 2 ∨ squareRank s = 5 := by
  intro s hs
  simp only [Board.push] at hp
  split at hp
  · cases hp
    simp only [Board.pushPrelude_fields] at hs
    cases hs
  · split at hp
    · cases hp
      simp only [Board._setPieceAt_preserves, Board.pushPrelude_fields] at hs
      cases hs
    · split at hp
      · simp at hp
      · rename_i b3 pieceType0 heq
        cases hp
        simp only [Board.pushFinishPlacement_preserves] at hs
        have hepb3 : b3.epSquare = none := by
          have h1 := congrArg (fun p => p.1.epSquare) heq
          simp only at h1
          rw [(Board._removePieceAt_preserves _ _).1] at h1
          rw [← h1]
          split <;> simp only [Board.pushPrelude_fields]
        refine Board.pushPawnStep_epSquare_rank _ _ _ _ _ s ?_ hs
        rw [(Board.pushCastlingRightsUpdate_preserves _ _ _ _ _).1]
        exact hepb3

/-- Witness for `push_keeps_epSquare_on_rank_3_or_6`: pushing e2e4 on the
starting position sets the en-passant square to e3 (square 20, rank index 2). -/
theorem push_keeps_epSquare_on_rank_3_or_6_witness :
    squareRank 20 = 2 ∨ squareRank 20 = 5 := by
  refine push_keeps_epSquare_on_rank_3_or_6 Board.startBoard (Move.mk 12 28 none none)
    ((Board.startBoard.push (Move.mk 12 28 none none)).toOption.getD Board.startBoard)
    ?_ 20 ?_
  · rfl
  · rfl

/-- Counterexample to claim C8 as stated: `setFen` accepts any square name
in the en-passant field, so the public operation
`new Board("4k3/8/8/8/8/8/8/4K3 w - e4 0 1")` leaves `epSquare = e4`
(square 28), which lies on rank index 3 — neither rank 3 nor rank 6 of the
claim.  (Claim C8, counterexample.) -/
theorem setFen_accepts_epSquare_on_any_rank :
    (Board.fromFen "4k3/8/8/8/8/8/8/4K3 w - e4 0 1").map Board.epSquare = .ok (some 28) ∧
    squareRank 28 = 3 ∧ ¬(squareRank 28 = 2 ∨ squareRank 28 = 5) := by
  exact ⟨rfl, rfl, by decide⟩

/-- `x & ~y = x` when `x` and `y` share no bits. -/
theorem andNot_eq_self {x y : Nat} (h : x &&& y = 0) : andNot x y = x := by
  simp [andNot, h]

/-- A power of two has exactly its one bit set. -/
theorem testBit_of_two_pow {k i : Nat} (h : ((1 <<< k : Nat)).testBit i = true) : i = k := by
  rw [Nat.one_shiftLeft, Nat.testBit_two_pow] at h
  exact (of_decide_eq_true h).symm

/-- A board with two distinct set bits is not the single bit at its `msb`. -/
theorem ne_single_of_two_bits {c i j : Nat} (hij : i ≠ j)
    (hi : c.testBit i = true) (hj : c.testBit j = true) :
    BB_SQUARE (msb c) ≠ c := by
  intro h
  rw [← h] at hi hj
  exact hij ((testBit_of_two_pow hi).trans (testBit_of_two_pow hj).symm)

/-- With more than one checker, `_generateEvasions` emits only moves of the
king: the block/capture branch is gated on the checkers being a single bit. -/
theorem mem_generateEvasions_from_eq_king (b : Board) (king checkers F T : Nat)
    (hmulti : BB_SQUARE (msb checkers) ≠ checkers) :
    ∀ m ∈ b._generateEvasions king checkers F T, m.fromSquare = king := by
  intro m hm
  simp only [Board._generateEvasions] at hm
  rw [if_neg hmulti, List.append_nil] at hm
  split at hm
  · obtain ⟨t, _, rfl⟩ := List.mem_map.mp hm
    rfl
  · cases hm

/-- In a position where the side to move is in check from more than one
checking piece (two distinct bits in the attackers mask of the king), every
move yielded by `generateLegalMoves()` moves the king: its from-square is the
king's square.  (Claim C6.) -/
theorem doubleCheck_only_king_moves (b : Board) (kingSq : Nat)
    (hpk : b.promoted &&& b.kings = 0)
    (hk : b.king b.turn = some kingSq)
    (hmulti : ∃ i j, i ≠ j ∧ (b.attackersMask (!b.turn) kingSq).testBit i = true ∧
      (b.attackersMask (!b.turn) kingSq).testBit j = true) :
    (b.generateLegalMoves BB_ALL BB_ALL).all (fun m => m.fromSquare == kingSq) = true := by
  obtain ⟨i, j, hij, hi, hj⟩ := hmulti
  have hand : b.occupiedCo b.turn &&& b.kings &&& b.promoted = 0 := by
    rw [Nat.and_assoc, Nat.and_comm b.kings b.promoted, ← Nat.and_assoc]
    calc b.occupiedCo b.turn &&& b.promoted &&& b.kings
        = b.occupiedCo b.turn &&& (b.promoted &&& b.kings) := by rw [Nat.and_assoc]
      _ = 0 := by rw [hpk, Nat.and_zero]
  rw [Board.king] at hk
  rw [andNot_eq_self hand] at hk
  have hKmask : b.occupiedCo b.turn &&& b.kings ≠ 0 := by
    intro h0
    rw [if_neg (by simp [h0])] at hk
    cases hk
  rw [if_pos (by simpa using hKmask)] at hk
  have hkingSq : kingSq = msb (b.occupiedCo b.turn &&& b.kings) := by
    cases hk; rfl
  have hcheckers : b.attackersMask (!b.turn) kingSq ≠ 0 := by
    intro h0
    rw [h0] at hi
    simp [Nat.testBit] at hi
  rw [List.all_eq_true]
  intro m hm
  simp only [Board.generateLegalMoves, Board.isVariantEnd, Bool.false_eq_true, if_false,
    Nat.and_comm b.kings (b.occupiedCo b.turn)] at hm
  rw [if_pos hKmask] at hm
  rw [← hkingSq] at hm
  rw [if_pos hcheckers] at hm
  have hmem := (List.mem_filter.mp hm).1
  have := mem_generateEvasions_from_eq_king b kingSq (b.attackersMask (!b.turn) kingSq)
    BB_ALL BB_ALL (ne_single_of_two_bits hij hi hj) m hmem
  simp [this]

/-- Witness for `doubleCheck_only_king_moves`: White king e1 checked by both
the rook on e8 and the bishop on h4; every legal move starts from e1. -/
theorem doubleCheck_only_king_moves_witness :
    (((Board.fromFen "4r3/8/8/8/7b/8/8/4K3 w - - 0 1").toOption.getD
        Board.startBoard).generateLegalMoves BB_ALL BB_ALL).all
      (fun m => m.fromSquare == 4) = true := by
  refine doubleCheck_only_king_moves _ 4 ?_ ?_ ⟨60, 31, by decide, ?_, ?_⟩
  · rfl
  · rfl
  · rfl
  · rfl

/-- `Move.fromUci` accepts any piece symbol as the fifth (promotion)
character: `a7a8k` parses to a move with promotion `KING` and `a7a8p` to one
with promotion `PAWN`, instead of raising `InvalidMoveError`.  (Claim C10.) -/
theorem fromUci_accepts_any_promotion_symbol :
    Move.fromUci "a7a8k" = .ok ⟨48, 56, some KING, none⟩ ∧
    Move.fromUci "a7a8p" = .ok ⟨48, 56, some PAWN, none⟩ ∧
    KING ∉ [KNIGHT, BISHOP, ROOK, QUEEN] ∧ PAWN ∉ [KNIGHT, BISHOP, ROOK, QUEEN] := by
  refine ⟨rfl, rfl, by decide, by decide⟩

end ChessTs
